import Mathlib

/-!
# SWC mesh codec (`itkSWCMeshIO.cxx`)

A shallow embedding of `itk::SWCMeshIO`: the scan of an SWC text file
(`ReadMeshInformation`), the windowed decoder of the sign-terminated
connectivity stream (`ReadCells`), and the properties of both.

The C++ stream library is embedded as far as the code observes it: the
characters still to be read and the state bits `eofbit` and `failbit`.
-/

namespace itk

/-! ## Input streams -/

/-- State of a `std::istream`: the characters not yet extracted and the state
bits. `badbit` is left out, no operation used here raises it. -/
structure IStream where
  buf : List Char
  eofbit : Bool
  failbit : Bool
deriving DecidableEq, Repr

/-- A freshly opened stream over `content`. -/
def IStream.opened (content : List Char) : IStream :=
  { buf := content, eofbit := false, failbit := false }

/-- The member `good()`: no state bit is set. -/
def IStream.good (s : IStream) : Bool := !s.eofbit && !s.failbit

/-- The member `eof()`: only `eofbit` is inspected. -/
def IStream.eof (s : IStream) : Bool := s.eofbit

/-- The member `str(line)` of a string stream: the buffer is replaced, the
state bits are left as they are. -/
def IStream.str (s : IStream) (line : List Char) : IStream :=
  { s with buf := line }

/-- A stream whose `eofbit` is clear is good: the code only ever lets
`failbit` be raised together with `eofbit` on the file stream. -/
def IStream.sane (s : IStream) : Prop := s.eofbit = false → s.failbit = false

/-- Characters up to the first newline, and what follows that newline when
there is one. -/
def splitLine : List Char → List Char × Option (List Char)
  | [] => ([], none)
  | c :: cs =>
    if c = '\n' then ([], some cs)
    else ((c :: (splitLine cs).1), (splitLine cs).2)

/-- The call `std::getline(is, line)`. A stream that is not good only gets
`failbit` and leaves `line` alone. Otherwise `line` is erased and filled up to
the delimiter, which is extracted and dropped; reaching the end of the input
raises `eofbit`, and `failbit` too when nothing at all was extracted. -/
def getline (is : IStream) (line : List Char) : IStream × List Char :=
  if is.good then
    match splitLine is.buf with
    | (l, some rest) => ({ is with buf := rest }, l)
    | (l, none) => ({ buf := [], eofbit := true, failbit := l.isEmpty }, l)
  else ({ is with failbit := true }, line)

/-- The classification `isspace` of the C locale. -/
def isspace (c : Char) : Bool := c.toNat = 32 || (9 ≤ c.toNat && c.toNat ≤ 13)

/-- The classification `isdigit`. -/
def isdigit (c : Char) : Bool := 48 ≤ c.toNat && c.toNat ≤ 57

/-- The sentry of a formatted extraction (`skipws` set): a stream that is not
good gets `failbit`; otherwise leading white space is skipped, and running
into the end of the input while skipping raises `eofbit` and `failbit`. -/
def sentry (is : IStream) : IStream × Bool :=
  if is.good then
    if (is.buf.dropWhile isspace).isEmpty then
      ({ buf := [], eofbit := true, failbit := true }, false)
    else ({ is with buf := is.buf.dropWhile isspace }, true)
  else ({ is with failbit := true }, false)

/-- Value of a run of decimal digits. -/
def digitsValue (ds : List Char) : Nat :=
  ds.foldl (fun a c => 10 * a + (c.toNat - 48)) 0

/-- The sign character in front of a number, if any, and what follows it. -/
def splitSign (b : List Char) : Option Char × List Char :=
  match b with
  | [] => (none, [])
  | c :: cs => if c = '-' ∨ c = '+' then (some c, cs) else (none, c :: cs)

/-- Stage 2 and 3 of `num_get` for a signed integer type with range
`[lo, hi]`, base ten: an optional sign and a run of digits are accumulated. No
digit stores `0` and raises `failbit`; a value out of range stores the nearest
bound and raises `failbit`; accumulating up to the end of the buffer raises
`eofbit`. -/
def numGetInt (lo hi : Int) (is : IStream) : IStream × Int :=
  let sgn := (splitSign is.buf).1
  let body := (splitSign is.buf).2
  let ds := body.takeWhile isdigit
  let rest := body.dropWhile isdigit
  if ds.isEmpty then
    ({ buf := rest, eofbit := rest.isEmpty, failbit := true }, 0)
  else
    let v : Int := if sgn = some '-' then -(digitsValue ds : Int) else (digitsValue ds : Int)
    if v < lo then ({ buf := rest, eofbit := rest.isEmpty, failbit := true }, lo)
    else if hi < v then ({ buf := rest, eofbit := rest.isEmpty, failbit := true }, hi)
    else ({ buf := rest, eofbit := rest.isEmpty, failbit := false }, v)

/-- The operator `is >> v` for a signed integer `v`: when the sentry fails the
variable keeps the value it had. -/
def extractInt (lo hi : Int) (is : IStream) (v : Int) : IStream × Int :=
  if (sentry is).2 then numGetInt lo hi (sentry is).1 else ((sentry is).1, v)

/-- Accumulation of the characters of a floating-point field after the sign:
digits, one decimal point before any exponent, one exponent marker once a
digit was seen, and a sign right after the marker. The flags are: a mantissa
digit was seen, a point was seen, a marker was seen, the marker was the
previous character. Returns the field and the characters left. -/
def floatField (m d s e : Bool) : List Char → List Char × List Char
  | [] => ([], [])
  | c :: cs =>
    if e && (c = '+' || c = '-') then
      (c :: (floatField m d s false cs).1, (floatField m d s false cs).2)
    else if isdigit c then
      (c :: (floatField true d s false cs).1, (floatField true d s false cs).2)
    else if c = '.' && !d && !s then
      (c :: (floatField m true s false cs).1, (floatField m true s false cs).2)
    else if (c = 'e' || c = 'E') && !s && m then
      ('e' :: (floatField m d true true cs).1, (floatField m d true true cs).2)
    else ([], c :: cs)

/-- Stage 2 and 3 of `num_get` for `double`. The conversion of the
accumulated field to a floating-point value is the C library's; it is the
parameter `cv`, giving the value stored and whether the conversion reports a
failure. -/
def numGetFloat {F : Type} (cv : List Char → F × Bool) (is : IStream) : IStream × F :=
  let sgn := (splitSign is.buf).1
  let body := (splitSign is.buf).2
  let fld := floatField false false false false body
  let field := (match sgn with | some c => [c] | none => []) ++ fld.1
  ({ buf := fld.2, eofbit := fld.2.isEmpty, failbit := (cv field).2 }, (cv field).1)

/-- The operator `is >> v` for a `double` `v`. -/
def extractFloat {F : Type} (cv : List Char → F × Bool) (is : IStream) (v : F) : IStream × F :=
  if (sentry is).2 then numGetFloat cv (sentry is).1 else ((sentry is).1, v)

/-- The member `line.find_first_of(c)`: index of the first `c`, `npos` being
`none`. -/
def find_first_of (line : List Char) (c : Char) : Option Nat :=
  match line with
  | [] => none
  | x :: xs => if x = c then some 0 else (find_first_of xs c).map (· + 1)

/-! ## The codec object -/

/-- The enumeration `SWCMeshIOEnums::SWCPointData`. -/
inductive SWCPointData where
  | SampleIdentifier
  | TypeIdentifier
  | Radius
  | ParentIdentifier
deriving DecidableEq, Repr

/-- The enumeration `IOComponentEnum` of the mesh pipeline. -/
inductive IOComponentEnum where
  | UNKNOWNCOMPONENTTYPE
  | UCHAR
  | CHAR
  | USHORT
  | SHORT
  | UINT
  | INT
  | ULONG
  | LONG
  | LONGLONG
  | ULONGLONG
  | FLOAT
  | DOUBLE
  | LDOUBLE
deriving DecidableEq, Repr

/-- The enumeration `IOFileEnum` of the mesh pipeline. -/
inductive IOFileEnum where
  | ASCII
  | BINARY
  | TYPENOTAPPLICABLE
deriving DecidableEq, Repr

/-- The value of `CellGeometryEnum::POLYGON_CELL` in the mesh pipeline. -/
def POLYGON_CELL : Nat := 4

/-- The members of an `SWCMeshIO` object that the scan and the cell reader
touch. `F` is the type of `double` values. The map from point index to sample
identifier is a function, absent keys being `none`. -/
structure SWCMeshIO (F : Type) where
  m_HeaderContent : List (List Char)
  m_SampleIdentifiers : List Int
  m_TypeIdentifiers : List Int
  m_Radii : List F
  m_ParentIdentifiers : List Int
  m_PointsBuffer : List F
  m_CellsBuffer : List Nat
  m_PointIndexToSampleIdentifier : Nat → Option Int
  m_PointDataContent : SWCPointData
  m_CellBufferSize : Nat
  m_NumberOfPoints : Nat
  m_NumberOfCells : Nat
  m_NumberOfPointPixels : Nat
  m_UpdatePoints : Bool
  m_UpdatePointData : Bool
  m_UpdateCells : Bool
  m_PointDimension : Nat
  m_FileType : IOFileEnum
  m_PointComponentType : IOComponentEnum
  m_CellComponentType : IOComponentEnum
  m_PointPixelComponentType : IOComponentEnum
  m_NumberOfPointPixelComponents : Nat
  m_NumberOfCellPixelComponents : Nat
  m_FilePosition : Nat
  m_FirstCellId : Nat
  m_LastCellId : Nat

/-- Modelled from the spec: the header declaring `SampleIdentifierType` is not
among the sources; the data model gives the sample identifier as a signed
64-bit integer. Lower bound of the type. -/
def SampleIdentifierType.lo : Int := -(2 ^ 63)

/-- Modelled from the spec: upper bound of the signed 64-bit sample
identifier type, whose declaration is not among the sources. -/
def SampleIdentifierType.hi : Int := 2 ^ 63 - 1

/-- Modelled from the spec: the header declaring `TypeIdentifierType` is not
among the sources; the data model gives the type identifier as a signed
32-bit integer. Lower bound of the type. -/
def TypeIdentifierType.lo : Int := -(2 ^ 31)

/-- Modelled from the spec: upper bound of the signed 32-bit type identifier
type, whose declaration is not among the sources. -/
def TypeIdentifierType.hi : Int := 2 ^ 31 - 1

/-- Modelled from the spec: the header declaring `ParentIdentifierType` is not
among the sources; the data model gives the parent identifier as a signed
64-bit integer. Lower bound of the type. -/
def ParentIdentifierType.lo : Int := -(2 ^ 63)

/-- Modelled from the spec: upper bound of the signed 64-bit parent
identifier type, whose declaration is not among the sources. -/
def ParentIdentifierType.hi : Int := 2 ^ 63 - 1

/-! ## `ReadMeshInformation` -/

/-- The locals that the body of the record loop declares without an
initialiser. What they hold before the first successful extraction is
indeterminate. -/
structure Locals (F : Type) where
  sampleIdentifier : Int
  typeIdentifier : Int
  pointComponent : F
  radius : F
  parentIdentifier : Int

/-- State of the header loop: the file stream, the variable `line`, the flag
`inHeader` and the header lines collected. -/
structure HeaderState where
  inputFile : IStream
  line : List Char
  inHeader : Bool
  m_HeaderContent : List (List Char)
deriving DecidableEq, Repr

/-- Body of the header loop. -/
def headerBody (st : HeaderState) : HeaderState :=
  let r := getline st.inputFile st.line
  match find_first_of r.2 '#' with
  | none => { inputFile := r.1, line := r.2, inHeader := false,
              m_HeaderContent := st.m_HeaderContent }
  | some first => { inputFile := r.1, line := r.2, inHeader := st.inHeader,
                    m_HeaderContent := st.m_HeaderContent ++ [r.2.drop (first + 1)] }

/-- The loop `while (inHeader && !inputFile.eof())`, bounded by `fuel`
iterations; `none` when the bound is hit before the loop exits. -/
def headerLoop : Nat → HeaderState → Option HeaderState
  | 0, _ => none
  | fuel + 1, st =>
    if st.inHeader && !st.inputFile.eof then headerLoop fuel (headerBody st)
    else some st

/-- State of the record loop: the file stream, the variable `line`, the
string stream `istrm`, the two counters and the object. -/
structure ScanState (F : Type) where
  inputFile : IStream
  line : List Char
  istrm : IStream
  numberOfPoints : Nat
  numberOfCells : Nat
  obj : SWCMeshIO F

/-- Body of the record loop. `u` holds the indeterminate contents of the
uninitialised locals of this iteration; `pointComponent` is one variable
extracted into three times. -/
def dataBody {F : Type} (cv : List Char → F × Bool) (u : Locals F) (st : ScanState F) :
    ScanState F :=
  let i0 := st.istrm.str st.line
  let r1 := extractInt SampleIdentifierType.lo SampleIdentifierType.hi i0 u.sampleIdentifier
  let r2 := extractInt TypeIdentifierType.lo TypeIdentifierType.hi r1.1 u.typeIdentifier
  let r3 := extractFloat cv r2.1 u.pointComponent
  let r4 := extractFloat cv r3.1 r3.2
  let r5 := extractFloat cv r4.1 r4.2
  let r6 := extractFloat cv r5.1 u.radius
  let r7 := extractInt ParentIdentifierType.lo ParentIdentifierType.hi r6.1 u.parentIdentifier
  let g := getline st.inputFile st.line
  { inputFile := g.1
    line := g.2
    istrm := r7.1
    numberOfPoints := st.numberOfPoints + 1
    numberOfCells := if r7.2 ≠ -1 then st.numberOfCells + 1 else st.numberOfCells
    obj := { st.obj with
      m_SampleIdentifiers := st.obj.m_SampleIdentifiers ++ [r1.2]
      m_PointIndexToSampleIdentifier := fun k =>
        if k = st.numberOfPoints then some r1.2 else st.obj.m_PointIndexToSampleIdentifier k
      m_TypeIdentifiers := st.obj.m_TypeIdentifiers ++ [r2.2]
      m_PointsBuffer := st.obj.m_PointsBuffer ++ [r3.2, r4.2, r5.2]
      m_Radii := st.obj.m_Radii ++ [r6.2]
      m_ParentIdentifiers := st.obj.m_ParentIdentifiers ++ [r7.2]
      m_CellBufferSize :=
        if r7.2 ≠ -1 then st.obj.m_CellBufferSize + 4 else st.obj.m_CellBufferSize } }

/-- The loop `while (!inputFile.eof())` over the records, bounded by `fuel`
iterations; `none` when the bound is hit before the loop exits. The locals of
the iteration that starts with `numberOfPoints = i` are `u i`. -/
def dataLoop {F : Type} (cv : List Char → F × Bool) (u : Nat → Locals F) :
    Nat → ScanState F → Option (ScanState F)
  | 0, _ => none
  | fuel + 1, st =>
    if !st.inputFile.eof then dataLoop cv u fuel (dataBody cv (u st.numberOfPoints) st)
    else some st

/-- One labelled group of a `switch`: the label, the component type it
assigns, and whether the group ends in `break`. -/
structure SwitchCase where
  label : SWCPointData
  assign : IOComponentEnum
  hasBreak : Bool
deriving DecidableEq, Repr

/-- The groups of the `switch (m_PointDataContent)` in source order. The
group of `TypeIdentifier` has no `break`. -/
def pointDataSwitch : List SwitchCase :=
  [ { label := .SampleIdentifier, assign := .SHORT, hasBreak := true },
    { label := .TypeIdentifier, assign := .UCHAR, hasBreak := false },
    { label := .Radius, assign := .DOUBLE, hasBreak := true },
    { label := .ParentIdentifier, assign := .SHORT, hasBreak := true } ]

/-- Execution of the groups from the entry point on: each assignment is made
in turn until a group with `break` has run. -/
def runCases : List SwitchCase → IOComponentEnum → IOComponentEnum
  | [], cur => cur
  | c :: cs, _ => if c.hasBreak then c.assign else runCases cs c.assign

/-- A `switch` statement: control enters at the first group whose label is
`v`; with no such group nothing runs. -/
def runSwitch (v : SWCPointData) : List SwitchCase → IOComponentEnum → IOComponentEnum
  | [], cur => cur
  | c :: cs, cur => if c.label = v then runCases (c :: cs) cur else runSwitch v cs cur

/-- What follows the record loop: the counts, the update flags and the fixed
metadata. -/
def finishScan {F : Type} (st : ScanState F) : SWCMeshIO F :=
  { st.obj with
    m_NumberOfPoints := st.numberOfPoints
    m_NumberOfCells := st.numberOfCells
    m_NumberOfPointPixels := st.numberOfPoints
    m_UpdatePoints := if st.numberOfPoints ≠ 0 then true else st.obj.m_UpdatePoints
    m_UpdatePointData := if st.numberOfPoints ≠ 0 then true else st.obj.m_UpdatePointData
    m_UpdateCells := if st.numberOfCells ≠ 0 then true else st.obj.m_UpdateCells
    m_PointDimension := 3
    m_FileType := .ASCII
    m_PointComponentType := .DOUBLE
    m_CellComponentType := .UINT
    m_NumberOfPointPixelComponents := 1
    m_PointPixelComponentType :=
      runSwitch st.obj.m_PointDataContent pointDataSwitch st.obj.m_PointPixelComponentType
    m_NumberOfCellPixelComponents := 1 }

/-- The state in which the record loop is entered: the buffers cleared, the
size hint and the map reset, `istrm` empty and good. -/
def scanStart {F : Type} (self : SWCMeshIO F) (h : HeaderState) : ScanState F :=
  { inputFile := h.inputFile
    line := h.line
    istrm := IStream.opened []
    numberOfPoints := 0
    numberOfCells := 0
    obj := { self with
      m_HeaderContent := h.m_HeaderContent
      m_SampleIdentifiers := []
      m_TypeIdentifiers := []
      m_Radii := []
      m_ParentIdentifiers := []
      m_PointsBuffer := []
      m_CellsBuffer := []
      m_CellBufferSize := 0
      m_PointIndexToSampleIdentifier := fun _ => none } }

/-- The method `ReadMeshInformation` on a file that could be opened and has
the characters `file`. `cv` is the C library's conversion of a floating-point
field and `u` the indeterminate contents of the uninitialised locals. Both
loops get more iterations than the file has characters; `none` would mean
that one of them did not exit within that bound. -/
def ReadMeshInformation {F : Type} (cv : List Char → F × Bool) (u : Nat → Locals F)
    (self : SWCMeshIO F) (file : List Char) : Option ( SWCMeshIO F) :=
  match headerLoop (file.length + 2)
      { inputFile := IStream.opened file, line := [], inHeader := true, m_HeaderContent := [] } with
  | none => none
  | some h =>
    match dataLoop cv u (file.length + 2) (scanStart self h) with
    | none => none
    | some st => some (finishScan st)

/-! ## `ReadCells` -/

/-- The statement `x -= 1` on a `SizeValueType`, an unsigned integer of 64
bits: zero wraps around. -/
def decSize (x : Nat) : Nat := (x + (2 ^ 64 - 1)) % 2 ^ 64

/-- Conversion of an `int` value to `unsigned int` (32 bits). -/
def toUnsignedInt (x : Int) : Nat := (x % 2 ^ 32).toNat

/-- The caller's output buffer of `unsigned int` slots. A slot holds `none`
as long as nothing was stored in it. -/
abbrev CellBuffer := Nat → Option Nat

/-- A buffer in which nothing was stored yet. -/
def CellBuffer.fresh : CellBuffer := fun _ => none

/-- The store `data[i] = v`. -/
def CellBuffer.write (data : CellBuffer) (i v : Nat) : CellBuffer :=
  fun j => if j = i then some v else data j

/-- The variables of the cell loop. -/
structure CellsState where
  data : CellBuffer
  numPoints : Nat
  id : Nat
  index : Nat

/-- Body of the cell loop after `inputFile >> ptId` delivered `ptId`; `first`
and `last` are the decremented window bounds. The vertex count is a
`SizeValueType` stored in an `unsigned int` slot. -/
def readCellsBody (first last : Nat) (s : CellsState) (ptId : Int) : CellsState :=
  if 0 ≤ ptId then
    if first ≤ s.id ∧ s.id ≤ last then
      { s with
        data := s.data.write s.index (toUnsignedInt (ptId - 1))
        index := s.index + 1
        numPoints := s.numPoints + 1 }
    else s
  else
    if first ≤ s.id ∧ s.id ≤ last then
      { data := ((s.data.write s.index (toUnsignedInt (-(ptId + 1)))).write
            (s.index + 1 - (s.numPoints + 1) - 2) POLYGON_CELL).write
            (s.index + 1 - (s.numPoints + 1) - 1) ((s.numPoints + 1) % 2 ^ 32)
        numPoints := 0
        index := s.index + 1 + 2
        id := s.id + 1 }
    else { s with id := s.id + 1 }

/-- The loop `while (id < m_NumberOfCells)` over the integers that the
extraction delivers, `C` being the number of cells. Returns the final
variables and the integers not consumed. `none` when the stream has no integer
left while a cell is still awaited: the extraction then fails on every further
turn, and what the code does with the stale `ptId` is outside this embedding. -/
def readCellsLoop (C first last : Nat) : List Int → CellsState → Option (CellsState × List Int)
  | [], s => if s.id < C then none else some (s, [])
  | t :: ts, s =>
    if s.id < C then readCellsLoop C first last ts (readCellsBody first last s t)
    else some (s, t :: ts)

/-- What `ReadCells` leaves behind: the object, the output buffer and the
integers of the stream that were not consumed. -/
structure ReadCellsResult (F : Type) where
  obj : SWCMeshIO F
  data : CellBuffer
  rest : List Int

/-- The method `ReadCells` on a file that could be opened; `file p` is the
sequence of integers that formatted extraction delivers from byte offset `p`
of the file on. Both window bounds are decremented in the object itself. -/
def ReadCells {F : Type} (self : SWCMeshIO F) (file : Nat → List Int) (buffer : CellBuffer) :
    Option (ReadCellsResult F) :=
  let self1 := { self with
    m_FirstCellId := decSize self.m_FirstCellId
    m_LastCellId := decSize self.m_LastCellId }
  match readCellsLoop self1.m_NumberOfCells self1.m_FirstCellId self1.m_LastCellId
      (file self1.m_FilePosition) { data := buffer, numPoints := 0, id := 0, index := 2 } with
  | none => none
  | some r => some { obj := self1, data := r.1.data, rest := r.2 }

/-! ## Vocabulary of the properties -/

/-- The cells of a token stream: every negative token closes the cell made of
the tokens since the previous negative one. `cur` holds the tokens of the cell
under way; tokens after the last negative one form no cell. -/
def cellsFrom (cur : List Int) : List Int → List (List Int)
  | [] => []
  | t :: ts => if t < 0 then (cur ++ [t]) :: cellsFrom [] ts else cellsFrom (cur ++ [t]) ts

/-- The cells of a token stream, in stream order. -/
def streamCells (ts : List Int) : List (List Int) := cellsFrom [] ts

/-- Number of negative tokens of a stream. -/
def countNegative (ts : List Int) : Nat := ts.countP (fun t => decide (t < 0))

/-- The 0-based point index a token stands for: `t - 1` for a continuing
vertex, `-(t + 1)` for a terminator. -/
def vertexIndex (t : Int) : Int := if 0 ≤ t then t - 1 else -(t + 1)

/-- The slots of one cell: the cell kind, the vertex count, the vertices. -/
def cellSlots (cell : List Int) : List Nat :=
  POLYGON_CELL :: cell.length :: cell.map (fun t => toUnsignedInt (vertexIndex t))

/-- The cells of the first `C` of the stream whose 0-based position lies in
`[first - 1, last - 1]`. -/
def windowCells (C first last : Nat) (ts : List Int) : List (List Int) :=
  ((((streamCells ts).take C).take last).drop (first - 1))

/-- The slots of a list of cells laid out one after the other. -/
def layout (cells : List (List Int)) : List Nat := (cells.map cellSlots).flatten

/-- The first `n` slots of a buffer as a list, unwritten slots left out. -/
def CellBuffer.slots (data : CellBuffer) (n : Nat) : List Nat :=
  (List.range n).filterMap data

/-- The vertex lists held by a flat cell buffer `[kind, k, v_0 .. v_{k-1}]*`,
read with at most `fuel` cells. -/
def vertexLists : Nat → List Nat → List (List Nat)
  | 0, _ => []
  | _ + 1, [] => []
  | _ + 1, [_] => []
  | fuel + 1, _ :: k :: rest => rest.take k :: vertexLists fuel (rest.drop k)

/-- Modelled from the spec: the cell serializer `WriteCells(T *, ofstream &)`
is a template of the header, which is not among the sources. One cell is
written as its vertices, each but the last as `index + 1` and the last as
`-(index + 1)`. -/
def encodeCell (cell : List Nat) : List Int :=
  (cell.dropLast.map (fun (v : Nat) => (v : Int) + 1)) ++
    (match cell.getLast? with
     | some v => [-((v : Int) + 1)]
     | none => [])

/-- Modelled from the spec: the signed token stream that the cell serializer
of the header writes for a list of cells. -/
def encodeCells (cells : List (List Nat)) : List Int := (cells.map encodeCell).flatten

/-- The buffer `data` with the list `l` stored from slot `base` on. -/
def CellBuffer.overlay (data : CellBuffer) (base : Nat) (l : List Nat) : CellBuffer :=
  fun j => if base ≤ j ∧ j < base + l.length then l[j - base]? else data j

/-- The cells of a list whose position, counted from `id` on, lies in
`[first, last]`. -/
def selectCells (first last : Nat) : Nat → List (List Int) → List (List Int)
  | _, [] => []
  | id, c :: cs =>
    if first ≤ id ∧ id ≤ last then c :: selectCells first last (id + 1) cs
    else selectCells first last (id + 1) cs

/-- A cell of a token stream: continuing vertices, none negative, and a
negative terminator. -/
def IsCell (c : List Int) : Prop := ∃ vs t, c = vs ++ [t] ∧ (∀ v ∈ vs, 0 ≤ v) ∧ t < 0

/-- The slots `ReadCells` is to write for a window: the cells of the window
laid out one after the other. -/
def windowSlots (C first last : Nat) (ts : List Int) : List Nat :=
  layout (windowCells C first last ts)

/-- The total slot count of a list of cells: two slots and the vertices for
each cell. -/
def slotCount {α : Type} (cells : List (List α)) : Nat :=
  (cells.map (fun c => c.length + 2)).sum

/-! ## Sample values -/

/-- A conversion of floating-point fields that names every value by the text
of its field and reports no failure. -/
def fieldText (field : List Char) : List Char × Bool := (field, false)

/-- Contents for the uninitialised locals of the record loop that can be told
apart from anything a file holds: turn `i` finds `-1000 - i` in the integers
and the text `?` in the floating-point variables. -/
def sampleLocals (i : Nat) : Locals (List Char) :=
  { sampleIdentifier := -1000 - i
    typeIdentifier := -1000 - i
    pointComponent := ['?']
    radius := ['?']
    parentIdentifier := -1000 - i }

/-- An object with empty containers, no counts and the whole cell range
`[1, 2 ^ 64 - 1]` as window. -/
def sampleObject : SWCMeshIO (List Char) :=
  { m_HeaderContent := []
    m_SampleIdentifiers := []
    m_TypeIdentifiers := []
    m_Radii := []
    m_ParentIdentifiers := []
    m_PointsBuffer := []
    m_CellsBuffer := []
    m_PointIndexToSampleIdentifier := fun _ => none
    m_PointDataContent := .SampleIdentifier
    m_CellBufferSize := 0
    m_NumberOfPoints := 0
    m_NumberOfCells := 0
    m_NumberOfPointPixels := 0
    m_UpdatePoints := false
    m_UpdatePointData := false
    m_UpdateCells := false
    m_PointDimension := 3
    m_FileType := .ASCII
    m_PointComponentType := .UNKNOWNCOMPONENTTYPE
    m_CellComponentType := .UNKNOWNCOMPONENTTYPE
    m_PointPixelComponentType := .UNKNOWNCOMPONENTTYPE
    m_NumberOfPointPixelComponents := 0
    m_NumberOfCellPixelComponents := 0
    m_FilePosition := 0
    m_FirstCellId := 1
    m_LastCellId := 2 ^ 64 - 1 }

/-- The four-line scenario of the specification, every line ended by a
newline. -/
def scenarioFile : List Char :=
  "# test morphology\n1 1 0.0 0.0 0.0 1.0 -1\n2 3 1.0 0.0 0.0 1.0 1\n3 3 2.0 0.0 0.0 1.0 2\n".toList

/-- A sample stream of three cells, followed by a token that belongs to no
cell, found at every offset. -/
def sampleStream : Nat → List Int := fun _ => [1, 2, -3, 4, -5, 6, 7, -8, 9]

/-- A sample object that awaits three cells and has the 1-based window
`[2, 3]`. -/
def sampleCellsObject : SWCMeshIO (List Char) :=
  { sampleObject with m_NumberOfCells := 3, m_FirstCellId := 2, m_LastCellId := 3 }

/-- The text of a list of lines, each ended by a newline. -/
def joinLines (ls : List (List Char)) : List Char :=
  (ls.map (fun l => l ++ ['\n'])).flatten

/-- The text of a line after its first `#`. -/
def afterFirstHash (l : List Char) : List Char :=
  (l.dropWhile (fun c => decide (c ≠ '#'))).drop 1

/-- Two states of the record loop that agree on everything the loop reads and
on every member the scan is to fill. -/
def ScanState.agree {F : Type} (s t : ScanState F) : Prop :=
  s.inputFile = t.inputFile ∧ s.line = t.line ∧ s.istrm = t.istrm ∧
  s.numberOfPoints = t.numberOfPoints ∧ s.numberOfCells = t.numberOfCells ∧
  s.obj.m_HeaderContent = t.obj.m_HeaderContent ∧
  s.obj.m_SampleIdentifiers = t.obj.m_SampleIdentifiers ∧
  s.obj.m_TypeIdentifiers = t.obj.m_TypeIdentifiers ∧
  s.obj.m_Radii = t.obj.m_Radii ∧
  s.obj.m_ParentIdentifiers = t.obj.m_ParentIdentifiers ∧
  s.obj.m_PointsBuffer = t.obj.m_PointsBuffer ∧
  s.obj.m_PointIndexToSampleIdentifier = t.obj.m_PointIndexToSampleIdentifier ∧
  s.obj.m_CellBufferSize = t.obj.m_CellBufferSize

/-! ## Setters and getters -/

/-- The member `resize(n)` of a vector: the elements from position `n` on are
dropped, the missing ones are value-initialised, `d` being that value. -/
def resize {α : Type} (d : α) (v : List α) (n : Nat) : List α :=
  v.take n ++ List.replicate (n - v.length) d

/-- The loop `for (ii = 0; ii < size; ++ii)` that stores element `ii` of the
source in slot `ii` of the target, with `n` turns to go at index `ii`.
`SetElement` assigns through `operator[]`, and `GetElement(ii)` is element
`ii` of the source (`d` stands in where there is none). -/
def copyElements {α : Type} (d : α) (source : List α) : Nat → Nat → List α → List α
  | 0, _, target => target
  | n + 1, ii, target => copyElements d source n (ii + 1) (target.set ii (source.getD ii d))

/-- The method `SetSampleIdentifiers`. -/
def SetSampleIdentifiers {F : Type} (self : SWCMeshIO F) (sampleIdentifiers : List Int) :
    SWCMeshIO F :=
  { self with
    m_SampleIdentifiers := copyElements 0 sampleIdentifiers sampleIdentifiers.length 0
      (resize 0 self.m_SampleIdentifiers sampleIdentifiers.length) }

/-- The method `GetSampleIdentifiers`. -/
def GetSampleIdentifiers {F : Type} (self : SWCMeshIO F) : List Int := self.m_SampleIdentifiers

/-- The method `SetTypeIdentifiers`. -/
def SetTypeIdentifiers {F : Type} (self : SWCMeshIO F) (typeIdentifiers : List Int) :
    SWCMeshIO F :=
  { self with
    m_TypeIdentifiers := copyElements 0 typeIdentifiers typeIdentifiers.length 0
      (resize 0 self.m_TypeIdentifiers typeIdentifiers.length) }

/-- The method `GetTypeIdentifiers`. -/
def GetTypeIdentifiers {F : Type} (self : SWCMeshIO F) : List Int := self.m_TypeIdentifiers

/-- The method `SetRadii`; `zero` is the value-initialised `double`. -/
def SetRadii {F : Type} (zero : F) (self : SWCMeshIO F) (radii : List F) : SWCMeshIO F :=
  { self with
    m_Radii := copyElements zero radii radii.length 0 (resize zero self.m_Radii radii.length) }

/-- The method `GetRadii`. -/
def GetRadii {F : Type} (self : SWCMeshIO F) : List F := self.m_Radii

/-- The method `SetParentIdentifiers`. -/
def SetParentIdentifiers {F : Type} (self : SWCMeshIO F) (parentIdentifiers : List Int) :
    SWCMeshIO F :=
  { self with
    m_ParentIdentifiers := copyElements 0 parentIdentifiers parentIdentifiers.length 0
      (resize 0 self.m_ParentIdentifiers parentIdentifiers.length) }

/-- The method `GetParentIdentifiers`. -/
def GetParentIdentifiers {F : Type} (self : SWCMeshIO F) : List Int :=
  self.m_ParentIdentifiers

/-- The method `SetHeaderContent`; a value-initialised string is empty. -/
def SetHeaderContent {F : Type} (self : SWCMeshIO F) (headerContent : List (List Char)) :
    SWCMeshIO F :=
  { self with
    m_HeaderContent := copyElements [] headerContent headerContent.length 0
      (resize [] self.m_HeaderContent headerContent.length) }

/-- Modelled from the spec: the getter of the header content is declared in
the header, which is not among the sources; get operations return a read-only
view of the stored sequence. -/
def GetHeaderContent {F : Type} (self : SWCMeshIO F) : List (List Char) :=
  self.m_HeaderContent

/-! ## `WritePoints` and `WriteCells` -/

/-- The C++ types that a write method reads the caller's buffer as. -/
inductive CType where
  | unsignedChar
  | char
  | unsignedShort
  | short
  | unsignedInt
  | int
  | unsignedLong
  | long
  | unsignedLongLong
  | longLong
  | float
  | double
  | longDouble
deriving DecidableEq, Repr

/-- The width in bytes of a C++ type, as on an LP64 platform. Both character
types have width one on every platform. -/
def CType.sizeof : CType → Nat
  | .unsignedChar => 1
  | .char => 1
  | .unsignedShort => 2
  | .short => 2
  | .unsignedInt => 4
  | .int => 4
  | .unsignedLong => 8
  | .long => 8
  | .unsignedLongLong => 8
  | .longLong => 8
  | .float => 4
  | .double => 8
  | .longDouble => 16

/-- The C++ type that a component kind of the pipeline stands for; the
unknown kind stands for none. -/
def componentCType : IOComponentEnum → Option CType
  | .UNKNOWNCOMPONENTTYPE => none
  | .UCHAR => some .unsignedChar
  | .CHAR => some .char
  | .USHORT => some .unsignedShort
  | .SHORT => some .short
  | .UINT => some .unsignedInt
  | .INT => some .int
  | .ULONG => some .unsignedLong
  | .LONG => some .long
  | .LONGLONG => some .longLong
  | .ULONGLONG => some .unsignedLongLong
  | .FLOAT => some .float
  | .DOUBLE => some .double
  | .LDOUBLE => some .longDouble

/-- The thirteen supported component kinds. -/
def supportedKinds : List IOComponentEnum :=
  [.UCHAR, .CHAR, .USHORT, .SHORT, .UINT, .INT, .ULONG, .LONG, .ULONGLONG, .LONGLONG,
   .FLOAT, .DOUBLE, .LDOUBLE]

/-- The `switch (m_PointComponentType)` of `WritePoints`: the type the buffer
is cast to in the group of each kind, `none` for the `default` group. -/
def pointsCast : IOComponentEnum → Option CType
  | .UCHAR => some .unsignedChar
  | .CHAR => some .char
  | .USHORT => some .unsignedShort
  | .SHORT => some .short
  | .UINT => some .unsignedInt
  | .INT => some .int
  | .ULONG => some .unsignedLong
  | .LONG => some .long
  | .ULONGLONG => some .unsignedLongLong
  | .LONGLONG => some .longLong
  | .FLOAT => some .float
  | .DOUBLE => some .double
  | .LDOUBLE => some .longDouble
  | .UNKNOWNCOMPONENTTYPE => none

/-- The `switch (m_CellComponentType)` of `WriteCells`: the type the buffer is
cast to in the group of each kind, `none` for the `default` group. The group
of `CHAR` casts to `unsigned char *`. -/
def cellsCast : IOComponentEnum → Option CType
  | .UCHAR => some .unsignedChar
  | .CHAR => some .unsignedChar
  | .USHORT => some .unsignedShort
  | .SHORT => some .short
  | .UINT => some .unsignedInt
  | .INT => some .int
  | .ULONG => some .unsignedLong
  | .LONG => some .long
  | .ULONGLONG => some .unsignedLongLong
  | .LONGLONG => some .longLong
  | .FLOAT => some .float
  | .DOUBLE => some .double
  | .LDOUBLE => some .longDouble
  | .UNKNOWNCOMPONENTTYPE => none

/-- The exceptions of the write methods. -/
inductive WriteError where
  | noFileName
  | cannotOpen
  | unknownComponentType
deriving DecidableEq, Repr

/-- What a write method leaves: the exception it raised, if any, and the
content of the destination, `none` for a destination that cannot be opened. -/
structure WriteResult where
  error : Option WriteError
  destination : Option (List Char)
deriving DecidableEq, Repr

/-- The method `WritePoints(void * buffer)`. `m_FileName` is the member of the
base class; `destination` is the content of the file of that name, `none` if
the file cannot be opened for appending; `writeT T buffer` is the text that
the template `WritePoints(T *, std::ofstream &)` of the header appends for the
buffer read as `T`. -/
def WritePoints {F B : Type} (self : SWCMeshIO F) (m_FileName : List Char)
    (destination : Option (List Char)) (writeT : CType → B → List Char) (buffer : B) :
    WriteResult :=
  if m_FileName.isEmpty then { error := some .noFileName, destination := destination }
  else
    match destination with
    | none => { error := some .cannotOpen, destination := none }
    | some content =>
      match pointsCast self.m_PointComponentType with
      | some T => { error := none, destination := some (content ++ writeT T buffer) }
      | none => { error := some .unknownComponentType, destination := some content }

/-- The method `WriteCells(void * buffer)`, with the same parameters as
`WritePoints`, `writeT` being the template `WriteCells(T *, std::ofstream &)`
of the header. -/
def WriteCells {F B : Type} (self : SWCMeshIO F) (m_FileName : List Char)
    (destination : Option (List Char)) (writeT : CType → B → List Char) (buffer : B) :
    WriteResult :=
  if m_FileName.isEmpty then { error := some .noFileName, destination := destination }
  else
    match destination with
    | none => { error := some .cannotOpen, destination := none }
    | some content =>
      match cellsCast self.m_CellComponentType with
      | some T => { error := none, destination := some (content ++ writeT T buffer) }
      | none => { error := some .unknownComponentType, destination := some content }

/-- The tokens of a stream up to and including its `k`-th negative token. -/
def takeThroughNegative : Nat → List Int → List Int
  | 0, _ => []
  | _ + 1, [] => []
  | k + 1, t :: ts =>
    if t < 0 then t :: takeThroughNegative k ts else t :: takeThroughNegative (k + 1) ts

/-- The tokens of a stream that follow its `k`-th negative token. -/
def dropThroughNegative : Nat → List Int → List Int
  | 0, ts => ts
  | _ + 1, [] => []
  | k + 1, t :: ts =>
    if t < 0 then dropThroughNegative k ts else dropThroughNegative (k + 1) ts

/-! # Properties -/

/-! ## Termination of the scan -/

theorem splitLine_rest_length :
    ∀ (b rest : List Char), (splitLine b).2 = some rest → rest.length < b.length
  | [], rest, h => by simp [splitLine] at h
  | c :: cs, rest, h => by
    unfold splitLine at h
    split at h
    · simp only [Option.some.injEq] at h
      subst h
      simp
    · have ih := splitLine_rest_length cs rest h
      simp only [List.length_cons]
      omega

theorem getline_step (is : IStream) (line : List Char) (hs : is.sane)
    (he : is.eofbit = false) :
    (getline is line).1.sane ∧
      ((getline is line).1.eofbit = true ∨
        (getline is line).1.buf.length < is.buf.length) ∧
      (getline is line).1.buf.length ≤ is.buf.length := by
  have hf : is.failbit = false := hs he
  have hg : is.good = true := by simp [IStream.good, he, hf]
  unfold getline
  rw [if_pos hg]
  rcases hsp : splitLine is.buf with ⟨l, _ | rest⟩
  · simp [IStream.sane]
  · have hlt := splitLine_rest_length is.buf rest (by rw [hsp])
    refine ⟨?_, Or.inr hlt, Nat.le_of_lt hlt⟩
    simp [IStream.sane, hf]

theorem headerBody_inputFile (st : HeaderState) :
    (headerBody st).inputFile = (getline st.inputFile st.line).1 := by
  unfold headerBody
  dsimp only
  split <;> rfl

theorem headerLoop_total :
    ∀ (fuel : Nat) (st : HeaderState), st.inputFile.sane → st.inputFile.buf.length + 1 < fuel →
      ∃ st', headerLoop fuel st = some st' ∧ st'.inputFile.sane ∧
        st'.inputFile.buf.length ≤ st.inputFile.buf.length
  | 0, _, _, hf => by omega
  | fuel + 1, st, hs, hf => by
    unfold headerLoop
    by_cases hc : (st.inHeader && !st.inputFile.eof) = true
    · rw [if_pos hc]
      have he : st.inputFile.eofbit = false := by
        simp [IStream.eof] at hc
        exact hc.2
      have hg := getline_step st.inputFile st.line hs he
      rw [← headerBody_inputFile] at hg
      rcases hg with ⟨h1, h2, h3⟩
      rcases h2 with h2 | h2
      · -- the stream reached its end: the next turn leaves the loop
        cases fuel with
        | zero => omega
        | succ n =>
          unfold headerLoop
          have : ((headerBody st).inHeader && !(headerBody st).inputFile.eof) = false := by
            simp [IStream.eof, h2]
          rw [if_neg (by simp [this])]
          exact ⟨_, rfl, h1, h3⟩
      · obtain ⟨st', e, s', l'⟩ := headerLoop_total fuel (headerBody st) h1 (by omega)
        exact ⟨st', e, s', by omega⟩
    · rw [if_neg hc]
      exact ⟨st, rfl, hs, Nat.le_refl _⟩

theorem dataLoop_total {F : Type} (cv : List Char → F × Bool) (u : Nat → Locals F) :
    ∀ (fuel : Nat) (st : ScanState F), st.inputFile.sane → st.inputFile.buf.length + 1 < fuel →
      ∃ st', dataLoop cv u fuel st = some st'
  | 0, _, _, hf => by omega
  | fuel + 1, st, hs, hf => by
    unfold dataLoop
    by_cases hc : (!st.inputFile.eof) = true
    · rw [if_pos hc]
      have he : st.inputFile.eofbit = false := by
        simpa [IStream.eof] using hc
      have hg := getline_step st.inputFile st.line hs he
      have hb : (dataBody cv (u st.numberOfPoints) st).inputFile =
          (getline st.inputFile st.line).1 := rfl
      rw [← hb] at hg
      rcases hg with ⟨h1, h2, h3⟩
      rcases h2 with h2 | h2
      · cases fuel with
        | zero => omega
        | succ n =>
          unfold dataLoop
          rw [if_neg (by simp [IStream.eof, h2])]
          exact ⟨_, rfl⟩
      · exact dataLoop_total cv u fuel _ h1 (by omega)
    · rw [if_neg hc]
      exact ⟨st, rfl⟩

/-- The scan returns on every file: neither loop runs out of its bound. -/
theorem ReadMeshInformation_total {F : Type} (cv : List Char → F × Bool) (u : Nat → Locals F)
    (self : SWCMeshIO F) (file : List Char) :
    ∃ h st, headerLoop (file.length + 2)
        { inputFile := IStream.opened file, line := [], inHeader := true,
          m_HeaderContent := [] } = some h ∧
      dataLoop cv u (file.length + 2) (scanStart self h) = some st ∧
      ReadMeshInformation cv u self file = some (finishScan st) := by
  obtain ⟨h, eh, sh, lh⟩ := headerLoop_total (file.length + 2)
    { inputFile := IStream.opened file, line := [], inHeader := true, m_HeaderContent := [] }
    (by simp [IStream.sane, IStream.opened]) (by simp [IStream.opened])
  obtain ⟨st, est⟩ := dataLoop_total cv u (file.length + 2) (scanStart self h) sh
    (by simp only [scanStart]; simp only [IStream.opened] at lh; omega)
  refine ⟨h, st, eh, est, ?_⟩
  unfold ReadMeshInformation
  rw [eh]
  simp only
  rw [est]

/-- A property of the record loop's state that its body preserves holds when
the loop exits. -/
theorem dataLoop_invariant {F : Type} (cv : List Char → F × Bool) (u : Nat → Locals F)
    (P : ScanState F → Prop) (hP : ∀ st l, P st → P (dataBody cv l st)) :
    ∀ (fuel : Nat) (st st' : ScanState F), dataLoop cv u fuel st = some st' → P st → P st'
  | 0, _, _, h, _ => by simp [dataLoop] at h
  | fuel + 1, st, st', h, hp => by
    unfold dataLoop at h
    split at h
    · exact dataLoop_invariant cv u P hP fuel _ st' h (hP st _ hp)
    · simp only [Option.some.injEq] at h
      exact h ▸ hp

/-! ## Counts and lengths after the scan -/

/-- What one turn of the record loop does to the parent identifiers and to
the two cell counters. -/
theorem dataBody_cells {F : Type} (cv : List Char → F × Bool) (l : Locals F) (st : ScanState F) :
    ∃ p : Int,
      (dataBody cv l st).obj.m_ParentIdentifiers = st.obj.m_ParentIdentifiers ++ [p] ∧
      (dataBody cv l st).numberOfCells =
        (if p ≠ -1 then st.numberOfCells + 1 else st.numberOfCells) ∧
      (dataBody cv l st).obj.m_CellBufferSize =
        (if p ≠ -1 then st.obj.m_CellBufferSize + 4 else st.obj.m_CellBufferSize) :=
  ⟨_, rfl, rfl, rfl⟩

/-- What one turn of the record loop does to the lengths of the buffers. -/
theorem dataBody_lengths {F : Type} (cv : List Char → F × Bool) (l : Locals F)
    (st : ScanState F) :
    (dataBody cv l st).numberOfPoints = st.numberOfPoints + 1 ∧
    (dataBody cv l st).obj.m_PointsBuffer.length = st.obj.m_PointsBuffer.length + 3 ∧
    (dataBody cv l st).obj.m_SampleIdentifiers.length = st.obj.m_SampleIdentifiers.length + 1 ∧
    (dataBody cv l st).obj.m_TypeIdentifiers.length = st.obj.m_TypeIdentifiers.length + 1 ∧
    (dataBody cv l st).obj.m_Radii.length = st.obj.m_Radii.length + 1 ∧
    (dataBody cv l st).obj.m_ParentIdentifiers.length =
      st.obj.m_ParentIdentifiers.length + 1 := by
  simp [dataBody]

/-- C2: after the scan the reported number of cells is the number of entries
of `parentIdentifiers` different from `-1`, and the cell buffer size hint is
four times that number, on every input. -/
theorem ReadMeshInformation_cell_count {F : Type} (cv : List Char → F × Bool)
    (u : Nat → Locals F) (self : SWCMeshIO F) (file : List Char) :
    ∃ r, ReadMeshInformation cv u self file = some r ∧
      r.m_NumberOfCells = r.m_ParentIdentifiers.countP (fun p => decide (p ≠ -1)) ∧
      r.m_CellBufferSize = 4 * r.m_ParentIdentifiers.countP (fun p => decide (p ≠ -1)) := by
  obtain ⟨h, st, _, est, e⟩ := ReadMeshInformation_total cv u self file
  have inv := dataLoop_invariant cv u
    (fun s => s.numberOfCells = s.obj.m_ParentIdentifiers.countP (fun p => decide (p ≠ -1)) ∧
      s.obj.m_CellBufferSize = 4 * s.numberOfCells)
    (by
      intro s l ⟨h1, h2⟩
      obtain ⟨p, e1, e2, e3⟩ := dataBody_cells cv l s
      rw [e1, e2, e3, List.countP_append]
      by_cases hp : p = -1
      · simp [hp, h1, h2]
      · simp [hp, h1, h2]
        omega)
    _ _ _ est (by simp [scanStart])
  refine ⟨finishScan st, e, ?_, ?_⟩
  · exact inv.1
  · have h2 := inv.2
    rw [inv.1] at h2
    exact h2

/-- C3: after the scan with reported point count `N` the point buffer has
length `3 * N` and each of the four attribute buffers has length `N`, on every
input. -/
theorem ReadMeshInformation_buffer_lengths {F : Type} (cv : List Char → F × Bool)
    (u : Nat → Locals F) (self : SWCMeshIO F) (file : List Char) :
    ∃ r, ReadMeshInformation cv u self file = some r ∧
      r.m_PointsBuffer.length = 3 * r.m_NumberOfPoints ∧
      r.m_SampleIdentifiers.length = r.m_NumberOfPoints ∧
      r.m_TypeIdentifiers.length = r.m_NumberOfPoints ∧
      r.m_Radii.length = r.m_NumberOfPoints ∧
      r.m_ParentIdentifiers.length = r.m_NumberOfPoints := by
  obtain ⟨h, st, _, est, e⟩ := ReadMeshInformation_total cv u self file
  have inv := dataLoop_invariant cv u
    (fun s => s.obj.m_PointsBuffer.length = 3 * s.numberOfPoints ∧
      s.obj.m_SampleIdentifiers.length = s.numberOfPoints ∧
      s.obj.m_TypeIdentifiers.length = s.numberOfPoints ∧
      s.obj.m_Radii.length = s.numberOfPoints ∧
      s.obj.m_ParentIdentifiers.length = s.numberOfPoints)
    (by
      intro s l ⟨h1, h2, h3, h4, h5⟩
      obtain ⟨e0, e1, e2, e3, e4, e5⟩ := dataBody_lengths cv l s
      rw [e0, e1, e2, e3, e4, e5]
      omega)
    _ _ _ est (by simp [scanStart])
  exact ⟨finishScan st, e, inv⟩

/-! ## The reported point-attribute component kind -/

/-- The record loop never touches the selected point data channel nor the
component kind reported before the scan. -/
theorem dataLoop_channel {F : Type} (cv : List Char → F × Bool) (u : Nat → Locals F)
    (fuel : Nat) (st st' : ScanState F) (h : dataLoop cv u fuel st = some st') :
    st'.obj.m_PointDataContent = st.obj.m_PointDataContent ∧
      st'.obj.m_PointPixelComponentType = st.obj.m_PointPixelComponentType :=
  dataLoop_invariant cv u
    (fun s => s.obj.m_PointDataContent = st.obj.m_PointDataContent ∧
      s.obj.m_PointPixelComponentType = st.obj.m_PointPixelComponentType)
    (fun _ _ hp => hp) fuel st st' h ⟨rfl, rfl⟩

/-- The component kind the scan reports is the outcome of the `switch` on the
selected channel. -/
theorem ReadMeshInformation_component {F : Type} (cv : List Char → F × Bool)
    (u : Nat → Locals F) (self : SWCMeshIO F) (file : List Char) :
    ∃ r, ReadMeshInformation cv u self file = some r ∧
      r.m_PointPixelComponentType =
        runSwitch self.m_PointDataContent pointDataSwitch self.m_PointPixelComponentType := by
  obtain ⟨h, st, _, est, e⟩ := ReadMeshInformation_total cv u self file
  have hc := dataLoop_channel cv u _ _ _ est
  refine ⟨finishScan st, e, ?_⟩
  show runSwitch st.obj.m_PointDataContent pointDataSwitch st.obj.m_PointPixelComponentType = _
  rw [hc.1, hc.2]
  rfl

/-- C6, at the failing input: with `TypeIdentifier` selected as the point
data channel the scan reports `DOUBLE`, not `UCHAR`, on every file and from
every prior state; the group of `TypeIdentifier` runs on into that of
`Radius`. -/
theorem ReadMeshInformation_TypeIdentifier_reports_DOUBLE {F : Type}
    (cv : List Char → F × Bool) (u : Nat → Locals F) (self : SWCMeshIO F) (file : List Char) :
    ∃ r, ReadMeshInformation cv u { self with m_PointDataContent := .TypeIdentifier } file =
        some r ∧
      r.m_PointPixelComponentType = IOComponentEnum.DOUBLE ∧
      r.m_PointPixelComponentType ≠ IOComponentEnum.UCHAR := by
  obtain ⟨r, e, hr⟩ := ReadMeshInformation_component cv u
    { self with m_PointDataContent := .TypeIdentifier } file
  have hd : r.m_PointPixelComponentType = IOComponentEnum.DOUBLE := by
    rw [hr]
    rfl
  refine ⟨r, e, hd, ?_⟩
  rw [hd]
  decide

/-! ## The header -/

theorem splitLine_append_newline :
    ∀ (l t : List Char), '\n' ∉ l → splitLine (l ++ '\n' :: t) = (l, some t)
  | [], t, _ => by simp [splitLine]
  | c :: cs, t, h => by
    have hc : c ≠ '\n' := fun e => h (by simp [e])
    have hcs : '\n' ∉ cs := fun e => h (by simp [e])
    simp [splitLine, hc, splitLine_append_newline cs t hcs]

theorem splitLine_no_newline : ∀ (l : List Char), '\n' ∉ l → splitLine l = (l, none)
  | [], _ => by simp [splitLine]
  | c :: cs, h => by
    have hc : c ≠ '\n' := fun e => h (by simp [e])
    have hcs : '\n' ∉ cs := fun e => h (by simp [e])
    simp [splitLine, hc, splitLine_no_newline cs hcs]

theorem find_first_of_head (l : List Char) (c : Char) (h : l.head? = some c) :
    find_first_of l c = some 0 := by
  cases l with
  | nil => simp at h
  | cons x xs =>
    simp only [List.head?_cons, Option.some.injEq] at h
    simp [find_first_of, h]

/-- One turn of the header loop on a stream that starts with a line beginning
with `#`: the line is consumed and its text after the `#` is appended. -/
theorem headerBody_comment (st : HeaderState) (l t : List Char)
    (hin : st.inputFile = IStream.opened (l ++ '\n' :: t))
    (hh : l.head? = some '#') (hn : '\n' ∉ l) :
    headerBody st =
      { inputFile := IStream.opened t, line := l, inHeader := st.inHeader,
        m_HeaderContent := st.m_HeaderContent ++ [l.drop 1] } := by
  have hg : getline st.inputFile st.line = (IStream.opened t, l) := by
    simp [getline, hin, IStream.opened, IStream.good, splitLine_append_newline l t hn]
  unfold headerBody
  simp only [hg, find_first_of_head l '#' hh]

/-- The header loop over a run of lines beginning with `#`: whatever the loop
appends on the input `rest` that follows them, it appends after the texts of
these lines. -/
theorem headerLoop_comment_lines (rest : List Char) (extra : List (List Char))
    (hbase : ∀ (fuel : Nat) (st st' : HeaderState), st.inputFile = IStream.opened rest →
      st.inHeader = true → headerLoop fuel st = some st' →
      st'.m_HeaderContent = st.m_HeaderContent ++ extra) :
    ∀ (ls : List (List Char)), (∀ l ∈ ls, l.head? = some '#' ∧ '\n' ∉ l) →
      ∀ (fuel : Nat) (st st' : HeaderState),
        st.inputFile = IStream.opened ((ls.map (fun l => l ++ ['\n'])).flatten ++ rest) →
        st.inHeader = true → headerLoop fuel st = some st' →
        st'.m_HeaderContent = st.m_HeaderContent ++ (ls.map (List.drop 1) ++ extra)
  | [], _, fuel, st, st', hin, hh, hl => by
    simpa using hbase fuel st st' (by simpa using hin) hh hl
  | l :: ls, hls, 0, st, st', hin, hh, hl => by simp [headerLoop] at hl
  | l :: ls, hls, fuel + 1, st, st', hin, hh, hl => by
    have hl1 := hls l (by simp)
    have hin' : st.inputFile =
        IStream.opened (l ++ '\n' :: ((ls.map (fun l => l ++ ['\n'])).flatten ++ rest)) := by
      rw [hin]
      simp
    have hb := headerBody_comment st l _ hin' hl1.1 hl1.2
    unfold headerLoop at hl
    have hc : (st.inHeader && !st.inputFile.eof) = true := by
      simp [hh, hin, IStream.eof, IStream.opened]
    rw [if_pos hc, hb] at hl
    have ih := headerLoop_comment_lines rest extra hbase ls
      (fun x hx => hls x (by simp [hx])) fuel
      { inputFile := IStream.opened ((ls.map (fun l => l ++ ['\n'])).flatten ++ rest),
        line := l, inHeader := st.inHeader,
        m_HeaderContent := st.m_HeaderContent ++ [l.drop 1] } st' rfl hh hl
    rw [ih]
    simp

/-- The header loop on an input whose first line has no `#`: that line ends
the header and nothing is appended. -/
theorem headerLoop_first_data_line (rest : List Char)
    (hrest : find_first_of (splitLine rest).1 '#' = none) :
    ∀ (fuel : Nat) (st st' : HeaderState), st.inputFile = IStream.opened rest →
      st.inHeader = true → headerLoop fuel st = some st' →
      st'.m_HeaderContent = st.m_HeaderContent ++ []
  | 0, st, st', _, _, hl => by simp [headerLoop] at hl
  | fuel + 1, st, st', hin, hh, hl => by
    have hline : (getline st.inputFile st.line).2 = (splitLine rest).1 := by
      simp only [getline, hin, IStream.opened, IStream.good]
      rcases splitLine rest with ⟨a, _ | b⟩ <;> rfl
    have hb : headerBody st =
        { inputFile := (getline st.inputFile st.line).1,
          line := (getline st.inputFile st.line).2, inHeader := false,
          m_HeaderContent := st.m_HeaderContent } := by
      unfold headerBody
      simp only [hline, hrest]
    unfold headerLoop at hl
    have hc : (st.inHeader && !st.inputFile.eof) = true := by
      simp [hh, hin, IStream.eof, IStream.opened]
    rw [if_pos hc, hb] at hl
    cases fuel with
    | zero => simp [headerLoop] at hl
    | succ n =>
      unfold headerLoop at hl
      simp only [Bool.false_and, Bool.false_eq_true, if_false, Option.some.injEq] at hl
      rw [← hl]
      simp

/-- The header loop on a last line beginning with `#` that no newline ends:
its text is appended and the loop stops at the end of the input. -/
theorem headerLoop_last_comment_line (l : List Char) (hh : l.head? = some '#')
    (hn : '\n' ∉ l) :
    ∀ (fuel : Nat) (st st' : HeaderState), st.inputFile = IStream.opened l →
      st.inHeader = true → headerLoop fuel st = some st' →
      st'.m_HeaderContent = st.m_HeaderContent ++ [l.drop 1]
  | 0, st, st', _, _, hl => by simp [headerLoop] at hl
  | fuel + 1, st, st', hin, hh', hl => by
    have hg : getline st.inputFile st.line =
        ({ buf := [], eofbit := true, failbit := l.isEmpty }, l) := by
      simp [getline, hin, IStream.opened, IStream.good, splitLine_no_newline l hn]
    have hb : headerBody st =
        { inputFile := { buf := [], eofbit := true, failbit := l.isEmpty }, line := l,
          inHeader := st.inHeader, m_HeaderContent := st.m_HeaderContent ++ [l.drop 1] } := by
      unfold headerBody
      simp only [hg, find_first_of_head l '#' hh]
    unfold headerLoop at hl
    have hc : (st.inHeader && !st.inputFile.eof) = true := by
      simp [hh', hin, IStream.eof, IStream.opened]
    rw [if_pos hc, hb] at hl
    cases fuel with
    | zero => simp [headerLoop] at hl
    | succ n =>
      unfold headerLoop at hl
      simp only [IStream.eof, Bool.not_true, Bool.and_false, Bool.false_eq_true, if_false,
        Option.some.injEq] at hl
      rw [← hl]

/-- The header content the scan reports is the one the header loop
collected: the record loop does not touch it. -/
theorem ReadMeshInformation_header_of_loop {F : Type} (cv : List Char → F × Bool)
    (u : Nat → Locals F) (self : SWCMeshIO F) (file : List Char) :
    ∃ h r, headerLoop (file.length + 2)
        { inputFile := IStream.opened file, line := [], inHeader := true,
          m_HeaderContent := [] } = some h ∧
      ReadMeshInformation cv u self file = some r ∧
      r.m_HeaderContent = h.m_HeaderContent := by
  obtain ⟨h, st, eh, est, e⟩ := ReadMeshInformation_total cv u self file
  have inv := dataLoop_invariant cv u
    (fun s => s.obj.m_HeaderContent = h.m_HeaderContent) (fun _ _ hp => hp) _ _ _ est rfl
  exact ⟨h, finishScan st, eh, e, inv⟩

/-- C4, amended: for every sequence `ls` of comment lines, each beginning
with `#`, placed at the start of the input and not followed by a further line
that holds a `#`, the header content after the scan is these lines with
exactly their first character `#` removed and nothing else trimmed, in the
same order and number. The lines are each ended by a newline and followed by
a data portion `rest` whose first line has no `#` (which includes the empty
one), or the last of them, `l`, ends the input without a newline. -/
theorem ReadMeshInformation_header_fidelity {F : Type} (cv : List Char → F × Bool)
    (u : Nat → Locals F) (self : SWCMeshIO F) (ls : List (List Char))
    (hls : ∀ l ∈ ls, l.head? = some '#' ∧ '\n' ∉ l) :
    (∀ rest : List Char, find_first_of (splitLine rest).1 '#' = none →
      ∃ r, ReadMeshInformation cv u self
          ((ls.map (fun l => l ++ ['\n'])).flatten ++ rest) = some r ∧
        r.m_HeaderContent = ls.map (List.drop 1)) ∧
    (∀ l : List Char, l.head? = some '#' → '\n' ∉ l →
      ∃ r, ReadMeshInformation cv u self
          ((ls.map (fun l => l ++ ['\n'])).flatten ++ l) = some r ∧
        r.m_HeaderContent = (ls ++ [l]).map (List.drop 1)) := by
  constructor
  · intro rest hrest
    obtain ⟨h, r, eh, e, hr⟩ := ReadMeshInformation_header_of_loop cv u self
      ((ls.map (fun l => l ++ ['\n'])).flatten ++ rest)
    refine ⟨r, e, ?_⟩
    rw [hr]
    simpa using headerLoop_comment_lines rest [] (headerLoop_first_data_line rest hrest) ls hls
      _ _ h rfl rfl eh
  · intro l hh hn
    obtain ⟨h, r, eh, e, hr⟩ := ReadMeshInformation_header_of_loop cv u self
      ((ls.map (fun l => l ++ ['\n'])).flatten ++ l)
    refine ⟨r, e, ?_⟩
    rw [hr]
    simpa using headerLoop_comment_lines l [l.drop 1] (headerLoop_last_comment_line l hh hn) ls hls
      _ _ h rfl rfl eh

/-! ## Running the record loop on a given file -/

/-- An extraction from a stream that is not good fails in the sentry: the
variable is left as it was. -/
theorem extractInt_stale (lo hi : Int) (is : IStream) (v : Int) (h : is.good = false) :
    extractInt lo hi is v = ({ is with failbit := true }, v) := by
  simp [extractInt, sentry, h]

theorem extractFloat_stale {F : Type} (cv : List Char → F × Bool) (is : IStream) (v : F)
    (h : is.good = false) : extractFloat cv is v = ({ is with failbit := true }, v) := by
  simp [extractFloat, sentry, h]

/-- An integer extraction whose sentry succeeds stores what `num_get`
delivers, whatever the variable held. -/
theorem extractInt_of (lo hi : Int) (is : IStream) (v : Int) (is' : IStream) (val : Int)
    (h : (sentry is).2 = true ∧ numGetInt lo hi (sentry is).1 = (is', val)) :
    extractInt lo hi is v = (is', val) := by
  simp [extractInt, h.1, h.2]

/-- A floating-point extraction whose sentry succeeds and whose field `t` is
converted without failure stores the conversion of `t`. The field and the
stream left behind are those found with the conversion `fieldText`. -/
theorem extractFloat_of {F : Type} (cv : List Char → F × Bool) (is : IStream) (v : F)
    (is' : IStream) (t : List Char)
    (h : (sentry is).2 = true ∧ numGetFloat fieldText (sentry is).1 = (is', t))
    (hc : (cv t).2 = false) :
    extractFloat cv is v = (is', (cv t).1) := by
  obtain ⟨h1, h2⟩ := h
  simp only [numGetFloat, fieldText, Prod.mk.injEq] at h2
  obtain ⟨h2, h3⟩ := h2
  simp only [extractFloat, h1, if_true, numGetFloat, h3, hc]
  rw [← h2]

/-- The record loop's body, given what its seven extractions deliver. -/
theorem dataBody_eq {F : Type} (cv : List Char → F × Bool) (l : Locals F) (st : ScanState F)
    (i1 i2 i3 i4 i5 i6 i7 : IStream) (v1 v2 p : Int) (x y z w : F)
    (h1 : extractInt SampleIdentifierType.lo SampleIdentifierType.hi (st.istrm.str st.line)
      l.sampleIdentifier = (i1, v1))
    (h2 : extractInt TypeIdentifierType.lo TypeIdentifierType.hi i1 l.typeIdentifier = (i2, v2))
    (h3 : extractFloat cv i2 l.pointComponent = (i3, x))
    (h4 : extractFloat cv i3 x = (i4, y))
    (h5 : extractFloat cv i4 y = (i5, z))
    (h6 : extractFloat cv i5 l.radius = (i6, w))
    (h7 : extractInt ParentIdentifierType.lo ParentIdentifierType.hi i6 l.parentIdentifier =
      (i7, p)) :
    dataBody cv l st =
      { inputFile := (getline st.inputFile st.line).1
        line := (getline st.inputFile st.line).2
        istrm := i7
        numberOfPoints := st.numberOfPoints + 1
        numberOfCells := if p ≠ -1 then st.numberOfCells + 1 else st.numberOfCells
        obj := { st.obj with
          m_SampleIdentifiers := st.obj.m_SampleIdentifiers ++ [v1]
          m_PointIndexToSampleIdentifier := fun k =>
            if k = st.numberOfPoints then some v1 else st.obj.m_PointIndexToSampleIdentifier k
          m_TypeIdentifiers := st.obj.m_TypeIdentifiers ++ [v2]
          m_PointsBuffer := st.obj.m_PointsBuffer ++ [x, y, z]
          m_Radii := st.obj.m_Radii ++ [w]
          m_ParentIdentifiers := st.obj.m_ParentIdentifiers ++ [p]
          m_CellBufferSize :=
            if p ≠ -1 then st.obj.m_CellBufferSize + 4 else st.obj.m_CellBufferSize } } := by
  unfold dataBody
  simp only [h1, h2, h3, h4, h5, h6, h7]

/-- With `istrm` not good when a turn starts, no extraction of the turn
succeeds: every value pushed is the indeterminate content of a local, and the
line just read plays no part. -/
theorem dataBody_stale {F : Type} (cv : List Char → F × Bool) (l : Locals F) (st : ScanState F)
    (h : st.istrm.good = false) :
    dataBody cv l st =
      { inputFile := (getline st.inputFile st.line).1
        line := (getline st.inputFile st.line).2
        istrm := { buf := st.line, eofbit := st.istrm.eofbit, failbit := true }
        numberOfPoints := st.numberOfPoints + 1
        numberOfCells :=
          if l.parentIdentifier ≠ -1 then st.numberOfCells + 1 else st.numberOfCells
        obj := { st.obj with
          m_SampleIdentifiers := st.obj.m_SampleIdentifiers ++ [l.sampleIdentifier]
          m_PointIndexToSampleIdentifier := fun k =>
            if k = st.numberOfPoints then some l.sampleIdentifier
            else st.obj.m_PointIndexToSampleIdentifier k
          m_TypeIdentifiers := st.obj.m_TypeIdentifiers ++ [l.typeIdentifier]
          m_PointsBuffer :=
            st.obj.m_PointsBuffer ++ [l.pointComponent, l.pointComponent, l.pointComponent]
          m_Radii := st.obj.m_Radii ++ [l.radius]
          m_ParentIdentifiers := st.obj.m_ParentIdentifiers ++ [l.parentIdentifier]
          m_CellBufferSize :=
            if l.parentIdentifier ≠ -1 then st.obj.m_CellBufferSize + 4
            else st.obj.m_CellBufferSize } } := by
  have g0 : (st.istrm.str st.line).good = false := h
  have hb : ∀ (is : IStream), is.good = false →
      ({ is with failbit := true } : IStream).good = false := by
    intro is _
    simp [IStream.good]
  have g1 := hb _ g0
  have g2 := hb _ g1
  have g3 := hb _ g2
  have g4 := hb _ g3
  have g5 := hb _ g4
  have g6 := hb _ g5
  exact dataBody_eq cv l st _ _ _ _ _ _ _ _ _ _ _ _ _ _
    (extractInt_stale _ _ _ _ g0) (extractInt_stale _ _ _ _ g1) (extractFloat_stale _ _ _ g2)
    (extractFloat_stale _ _ _ g3) (extractFloat_stale _ _ _ g4) (extractFloat_stale _ _ _ g5)
    (extractInt_stale _ _ _ _ g6)

theorem dataLoop_step {F : Type} (cv : List Char → F × Bool) (u : Nat → Locals F) (fuel : Nat)
    (st : ScanState F) (h : st.inputFile.eofbit = false) :
    dataLoop cv u (fuel + 1) st = dataLoop cv u fuel (dataBody cv (u st.numberOfPoints) st) := by
  simp [dataLoop, IStream.eof, h]

theorem dataLoop_exit {F : Type} (cv : List Char → F × Bool) (u : Nat → Locals F) (fuel : Nat)
    (st : ScanState F) (h : st.inputFile.eofbit = true) :
    dataLoop cv u (fuel + 1) st = some st := by
  simp [dataLoop, IStream.eof, h]

/-- More iterations allowed do not change what the record loop returns. -/
theorem dataLoop_mono {F : Type} (cv : List Char → F × Bool) (u : Nat → Locals F) :
    ∀ (n m : Nat) (st r : ScanState F), n ≤ m → dataLoop cv u n st = some r →
      dataLoop cv u m st = some r
  | 0, _, _, _, _, h => by simp [dataLoop] at h
  | n + 1, 0, _, _, hnm, _ => by omega
  | n + 1, m + 1, st, r, hnm, h => by
    unfold dataLoop at h ⊢
    split
    · next hc =>
      rw [if_pos hc] at h
      exact dataLoop_mono cv u n m _ r (by omega) h
    · next hc =>
      rw [if_neg hc] at h
      exact h

/-- More iterations allowed do not change what the header loop returns. -/
theorem headerLoop_mono :
    ∀ (n m : Nat) (st r : HeaderState), n ≤ m → headerLoop n st = some r →
      headerLoop m st = some r
  | 0, _, _, _, _, h => by simp [headerLoop] at h
  | n + 1, 0, _, _, hnm, _ => by omega
  | n + 1, m + 1, st, r, hnm, h => by
    unfold headerLoop at h ⊢
    split
    · next hc =>
      rw [if_pos hc] at h
      exact headerLoop_mono n m _ r (by omega) h
    · next hc =>
      rw [if_neg hc] at h
      exact h

/-- The scan assembled from runs of its two loops within the bound. -/
theorem ReadMeshInformation_of_loops {F : Type} (cv : List Char → F × Bool)
    (u : Nat → Locals F) (self : SWCMeshIO F) (file : List Char) (n m : Nat)
    (h : HeaderState) (st : ScanState F) (hn : n ≤ file.length + 2) (hm : m ≤ file.length + 2)
    (eh : headerLoop n
      { inputFile := IStream.opened file, line := [], inHeader := true, m_HeaderContent := [] } =
        some h)
    (est : dataLoop cv u m (scanStart self h) = some st) :
    ReadMeshInformation cv u self file = some (finishScan st) := by
  unfold ReadMeshInformation
  rw [headerLoop_mono n _ _ _ hn eh]
  simp only
  rw [dataLoop_mono cv u m _ _ _ hm est]

/-! ## The four-line scenario -/

/-- The first record line of the scenario parsed by a turn that finds `istrm`
empty and good, with a conversion that succeeds on `0.0` and `1.0`. -/
theorem dataBody_scenario_first {F : Type} (cv : List Char → F × Bool) (l : Locals F)
    (st : ScanState F) (hline : st.line = "1 1 0.0 0.0 0.0 1.0 -1".toList)
    (hi : st.istrm = IStream.opened [])
    (h0 : (cv "0.0".toList).2 = false) (h1 : (cv "1.0".toList).2 = false) :
    dataBody cv l st =
      { inputFile := (getline st.inputFile st.line).1
        line := (getline st.inputFile st.line).2
        istrm := { buf := [], eofbit := true, failbit := false }
        numberOfPoints := st.numberOfPoints + 1
        numberOfCells := st.numberOfCells
        obj := { st.obj with
          m_SampleIdentifiers := st.obj.m_SampleIdentifiers ++ [1]
          m_PointIndexToSampleIdentifier := fun k =>
            if k = st.numberOfPoints then some 1 else st.obj.m_PointIndexToSampleIdentifier k
          m_TypeIdentifiers := st.obj.m_TypeIdentifiers ++ [1]
          m_PointsBuffer := st.obj.m_PointsBuffer ++
            [(cv "0.0".toList).1, (cv "0.0".toList).1, (cv "0.0".toList).1]
          m_Radii := st.obj.m_Radii ++ [(cv "1.0".toList).1]
          m_ParentIdentifiers := st.obj.m_ParentIdentifiers ++ [-1]
          m_CellBufferSize := st.obj.m_CellBufferSize } } := by
  have e := dataBody_eq cv l st
    { buf := " 1 0.0 0.0 0.0 1.0 -1".toList, eofbit := false, failbit := false }
    { buf := " 0.0 0.0 0.0 1.0 -1".toList, eofbit := false, failbit := false }
    { buf := " 0.0 0.0 1.0 -1".toList, eofbit := false, failbit := false }
    { buf := " 0.0 1.0 -1".toList, eofbit := false, failbit := false }
    { buf := " 1.0 -1".toList, eofbit := false, failbit := false }
    { buf := " -1".toList, eofbit := false, failbit := false }
    { buf := [], eofbit := true, failbit := false }
    1 1 (-1) (cv "0.0".toList).1 (cv "0.0".toList).1 (cv "0.0".toList).1 (cv "1.0".toList).1
    (by rw [hline, hi]; exact extractInt_of _ _ _ _ _ _ (by decide))
    (extractInt_of _ _ _ _ _ _ (by decide))
    (extractFloat_of cv _ _ _ _ (by decide) h0)
    (extractFloat_of cv _ _ _ _ (by decide) h0)
    (extractFloat_of cv _ _ _ _ (by decide) h0)
    (extractFloat_of cv _ _ _ _ (by decide) h1)
    (extractInt_of _ _ _ _ _ _ (by decide))
  rw [e]
  simp

/-- The state in which the header loop leaves the scenario. -/
theorem headerLoop_scenario :
    headerLoop 3
        { inputFile := IStream.opened scenarioFile, line := [], inHeader := true,
          m_HeaderContent := [] } =
      some { inputFile := IStream.opened "2 3 1.0 0.0 0.0 1.0 1\n3 3 2.0 0.0 0.0 1.0 2\n".toList,
             line := "1 1 0.0 0.0 0.0 1.0 -1".toList, inHeader := false,
             m_HeaderContent := [" test morphology".toList] } := by
  decide

/-- The scenario run through both loops: the first record is read from its
line, the second and third turns find `istrm` with `eofbit` set and push the
contents of the uninitialised locals. -/
theorem scenario_run {F : Type} (cv : List Char → F × Bool) (u : Nat → Locals F)
    (self : SWCMeshIO F)
    (h0 : (cv "0.0".toList).2 = false) (h1 : (cv "1.0".toList).2 = false) :
    ∃ st : ScanState F, ReadMeshInformation cv u self scenarioFile = some (finishScan st) ∧
      st.numberOfPoints = 3 ∧
      st.obj.m_HeaderContent = [" test morphology".toList] ∧
      st.obj.m_SampleIdentifiers = [1, (u 1).sampleIdentifier, (u 2).sampleIdentifier] ∧
      st.obj.m_TypeIdentifiers = [1, (u 1).typeIdentifier, (u 2).typeIdentifier] ∧
      st.obj.m_PointsBuffer =
        [(cv "0.0".toList).1, (cv "0.0".toList).1, (cv "0.0".toList).1,
         (u 1).pointComponent, (u 1).pointComponent, (u 1).pointComponent,
         (u 2).pointComponent, (u 2).pointComponent, (u 2).pointComponent] ∧
      st.obj.m_Radii = [(cv "1.0".toList).1, (u 1).radius, (u 2).radius] ∧
      st.obj.m_ParentIdentifiers = [-1, (u 1).parentIdentifier, (u 2).parentIdentifier] := by
  have est : ∃ st : ScanState F, dataLoop cv u 4 (scanStart self
      { inputFile := IStream.opened "2 3 1.0 0.0 0.0 1.0 1\n3 3 2.0 0.0 0.0 1.0 2\n".toList,
        line := "1 1 0.0 0.0 0.0 1.0 -1".toList, inHeader := false,
        m_HeaderContent := [" test morphology".toList] }) = some st ∧
      st.numberOfPoints = 3 ∧
      st.obj.m_HeaderContent = [" test morphology".toList] ∧
      st.obj.m_SampleIdentifiers = [1, (u 1).sampleIdentifier, (u 2).sampleIdentifier] ∧
      st.obj.m_TypeIdentifiers = [1, (u 1).typeIdentifier, (u 2).typeIdentifier] ∧
      st.obj.m_PointsBuffer =
        [(cv "0.0".toList).1, (cv "0.0".toList).1, (cv "0.0".toList).1,
         (u 1).pointComponent, (u 1).pointComponent, (u 1).pointComponent,
         (u 2).pointComponent, (u 2).pointComponent, (u 2).pointComponent] ∧
      st.obj.m_Radii = [(cv "1.0".toList).1, (u 1).radius, (u 2).radius] ∧
      st.obj.m_ParentIdentifiers = [-1, (u 1).parentIdentifier, (u 2).parentIdentifier] := by
    rw [dataLoop_step, dataBody_scenario_first cv _ _ rfl rfl h0 h1,
      dataLoop_step, dataBody_stale, dataLoop_step, dataBody_stale, dataLoop_exit]
    · exact ⟨_, rfl, rfl, rfl, rfl, rfl, rfl, rfl, rfl⟩
    all_goals rfl
  obtain ⟨st, e, hst⟩ := est
  exact ⟨st, ReadMeshInformation_of_loops cv u self scenarioFile 3 4 _ st (by decide) (by decide)
    headerLoop_scenario e, hst⟩

/-- C5, as stated, fails: on the four-line scenario the header text keeps the
blank that follows `#`, and the claimed outcome (here with the conversion
`fieldText` and the locals `sampleLocals`) is not what the scan yields. -/
theorem ReadMeshInformation_scenario_claim_fails :
    ∃ r, ReadMeshInformation fieldText sampleLocals sampleObject scenarioFile = some r ∧
      r.m_HeaderContent = [" test morphology".toList] ∧
      ¬ (r.m_NumberOfPoints = 3 ∧ r.m_NumberOfCells = 2 ∧
        r.m_HeaderContent = ["test morphology".toList] ∧
        r.m_PointsBuffer = ["0.0".toList, "0.0".toList, "0.0".toList, "1.0".toList,
          "0.0".toList, "0.0".toList, "2.0".toList, "0.0".toList, "0.0".toList] ∧
        r.m_ParentIdentifiers = [-1, 1, 2]) := by
  obtain ⟨st, e, _, hh, _⟩ := scenario_run fieldText sampleLocals sampleObject rfl rfl
  refine ⟨finishScan st, e, hh, ?_⟩
  intro hc
  have h2 : st.obj.m_HeaderContent = ["test morphology".toList] := hc.2.2.1
  rw [hh] at h2
  revert h2
  decide

/-- C5, amended: scanning the four-line scenario, every line ended by a
newline, with a conversion that succeeds on the fields `0.0` and `1.0`, yields
`N = 3`, the header content `[" test morphology"]` with the blank after `#`
kept, a point buffer of nine values that begins with the three values of
`0.0`, and three parent identifiers, the first being `-1`; this from every
prior state and whatever the uninitialised locals hold. -/
theorem ReadMeshInformation_scenario {F : Type} (cv : List Char → F × Bool)
    (u : Nat → Locals F) (self : SWCMeshIO F)
    (h0 : (cv "0.0".toList).2 = false) (h1 : (cv "1.0".toList).2 = false) :
    ∃ r, ReadMeshInformation cv u self scenarioFile = some r ∧
      r.m_NumberOfPoints = 3 ∧
      r.m_HeaderContent = [" test morphology".toList] ∧
      r.m_PointsBuffer.length = 9 ∧
      r.m_PointsBuffer.take 3 =
        [(cv "0.0".toList).1, (cv "0.0".toList).1, (cv "0.0".toList).1] ∧
      r.m_ParentIdentifiers.length = 3 ∧
      r.m_ParentIdentifiers.take 1 = [-1] := by
  obtain ⟨st, e, hn, hh, _, _, hp, _, hq⟩ := scenario_run cv u self h0 h1
  refine ⟨finishScan st, e, hn, hh, ?_, ?_, ?_, ?_⟩
  · show st.obj.m_PointsBuffer.length = 9
    rw [hp]
    rfl
  · show st.obj.m_PointsBuffer.take 3 = _
    rw [hp]
    rfl
  · show st.obj.m_ParentIdentifiers.length = 3
    rw [hq]
    rfl
  · show st.obj.m_ParentIdentifiers.take 1 = _
    rw [hq]
    rfl

theorem ReadMeshInformation_scenario_witness :
    ∃ r, ReadMeshInformation fieldText sampleLocals sampleObject scenarioFile = some r ∧
      r.m_NumberOfPoints = 3 ∧
      r.m_HeaderContent = [" test morphology".toList] ∧
      r.m_PointsBuffer.length = 9 ∧
      r.m_PointsBuffer.take 3 = ["0.0".toList, "0.0".toList, "0.0".toList] ∧
      r.m_ParentIdentifiers.length = 3 ∧
      r.m_ParentIdentifiers.take 1 = [-1] :=
  ReadMeshInformation_scenario fieldText sampleLocals sampleObject rfl rfl

/-- C1, at the failing input: on the scenario, whose three data lines are
well formed and ended by newlines, only the first record holds the values of
its line. The second and third entries of every buffer are the indeterminate
contents of the uninitialised locals of their turn, whatever these are and
from every prior state: extracting `-1` up to the end of the first line sets
`eofbit` on `istrm`, and `str` does not clear it. -/
theorem ReadMeshInformation_later_records_unparsed (u : Nat → Locals (List Char))
    (self : SWCMeshIO (List Char)) :
    ∃ r, ReadMeshInformation fieldText u self scenarioFile = some r ∧
      r.m_SampleIdentifiers = [1, (u 1).sampleIdentifier, (u 2).sampleIdentifier] ∧
      r.m_TypeIdentifiers = [1, (u 1).typeIdentifier, (u 2).typeIdentifier] ∧
      r.m_PointsBuffer =
        ["0.0".toList, "0.0".toList, "0.0".toList,
         (u 1).pointComponent, (u 1).pointComponent, (u 1).pointComponent,
         (u 2).pointComponent, (u 2).pointComponent, (u 2).pointComponent] ∧
      r.m_Radii = ["1.0".toList, (u 1).radius, (u 2).radius] ∧
      r.m_ParentIdentifiers = [-1, (u 1).parentIdentifier, (u 2).parentIdentifier] := by
  obtain ⟨st, e, _, _, h⟩ := scenario_run fieldText u self rfl rfl
  exact ⟨finishScan st, e, h⟩

/-- C4 at a sample input: two comment lines, the first with a blank after
its `#`, in front of a record line. -/
theorem ReadMeshInformation_header_fidelity_witness :
    ∃ r, ReadMeshInformation fieldText sampleLocals sampleObject
        "# a\n##b\n1 1 0.0 0.0 0.0 1.0 -1\n".toList = some r ∧
      r.m_HeaderContent = [" a".toList, "#b".toList] :=
  (ReadMeshInformation_header_fidelity fieldText sampleLocals sampleObject
    ["# a".toList, "##b".toList] (by decide)).1 "1 1 0.0 0.0 0.0 1.0 -1\n".toList (by decide)

set_option maxRecDepth 100000 in
/-- C4, as stated, fails: the one comment line `#a` at the start of the input
is followed by a record line that holds a `#` further on. The header loop
takes that line as a header line too, so the header content has two entries,
`a` and the text after the `#` of the record line, and is not the comment
line with its `#` stripped; the record line yields no record. -/
theorem ReadMeshInformation_header_takes_later_hash_line :
    ∃ r, ReadMeshInformation fieldText sampleLocals sampleObject
        "#a\n1 1 0 0 0 1 -1 # root\n".toList = some r ∧
      r.m_HeaderContent = ["a".toList, " root".toList] ∧
      r.m_HeaderContent ≠ ["#a".toList].map (List.drop 1) ∧
      r.m_NumberOfPoints = 0 := by
  refine ⟨_, rfl, ?_⟩
  decide

/-! ## The output buffer -/

theorem CellBuffer.overlay_nil (d : CellBuffer) (b : Nat) : d.overlay b [] = d := by
  funext j
  simp [CellBuffer.overlay]

theorem CellBuffer.write_eq_overlay (d : CellBuffer) (i v : Nat) :
    d.write i v = d.overlay i [v] := by
  funext j
  simp only [CellBuffer.write, CellBuffer.overlay, List.length_singleton]
  by_cases h : j = i
  · subst h
    simp
  · rw [if_neg h, if_neg (by omega)]

theorem CellBuffer.overlay_append (d : CellBuffer) (b : Nat) (l1 l2 : List Nat) :
    (d.overlay b l1).overlay (b + l1.length) l2 = d.overlay b (l1 ++ l2) := by
  funext j
  simp only [CellBuffer.overlay, List.length_append]
  by_cases h1 : b + l1.length ≤ j ∧ j < b + l1.length + l2.length
  · rw [if_pos h1, if_pos (by omega), List.getElem?_append_right (by omega)]
    congr 1
    omega
  · rw [if_neg h1]
    by_cases h2 : b ≤ j ∧ j < b + l1.length
    · rw [if_pos h2, if_pos (by omega), List.getElem?_append_left (by omega)]
    · rw [if_neg h2, if_neg (by omega)]

theorem CellBuffer.overlay_comm (d : CellBuffer) (b1 b2 : Nat) (l1 l2 : List Nat)
    (h : b2 + l2.length ≤ b1) :
    (d.overlay b1 l1).overlay b2 l2 = (d.overlay b2 l2).overlay b1 l1 := by
  funext j
  simp only [CellBuffer.overlay]
  by_cases h1 : b1 ≤ j ∧ j < b1 + l1.length
  · rw [if_neg (by omega), if_pos h1, if_pos h1]
  · by_cases h2 : b2 ≤ j ∧ j < b2 + l2.length
    · rw [if_pos h2, if_neg h1, if_pos h2]
    · rw [if_neg h2, if_neg h1, if_neg h1, if_neg h2]

/-! ## The cell loop -/

theorem readCellsLoop_done (C first last : Nat) (ts : List Int) (s : CellsState)
    (h : ¬ s.id < C) : readCellsLoop C first last ts s = some (s, ts) := by
  cases ts <;> simp [readCellsLoop, h]

theorem readCellsLoop_cons (C first last : Nat) (t : Int) (ts : List Int) (s : CellsState)
    (h : s.id < C) :
    readCellsLoop C first last (t :: ts) s =
      readCellsLoop C first last ts (readCellsBody first last s t) := by
  simp [readCellsLoop, h]

theorem readCellsBody_vertex_in (first last : Nat) (s : CellsState) (t : Int) (ht : 0 ≤ t)
    (hw : first ≤ s.id ∧ s.id ≤ last) :
    readCellsBody first last s t =
      { s with
        data := s.data.write s.index (toUnsignedInt (t - 1))
        index := s.index + 1
        numPoints := s.numPoints + 1 } := by
  simp [readCellsBody, ht, hw]

theorem readCellsBody_vertex_out (first last : Nat) (s : CellsState) (t : Int) (ht : 0 ≤ t)
    (hw : ¬ (first ≤ s.id ∧ s.id ≤ last)) :
    readCellsBody first last s t = s := by
  simp only [readCellsBody, ht, if_true, hw, if_false]

theorem readCellsBody_terminator_in (first last : Nat) (s : CellsState) (t : Int) (ht : t < 0)
    (hw : first ≤ s.id ∧ s.id ≤ last) :
    readCellsBody first last s t =
      { data := ((s.data.write s.index (toUnsignedInt (-(t + 1)))).write
            (s.index + 1 - (s.numPoints + 1) - 2) POLYGON_CELL).write
            (s.index + 1 - (s.numPoints + 1) - 1) ((s.numPoints + 1) % 2 ^ 32)
        numPoints := 0
        index := s.index + 1 + 2
        id := s.id + 1 } := by
  have h : ¬ 0 ≤ t := by omega
  simp only [readCellsBody, h, if_false, hw, and_self, if_true]

theorem readCellsBody_terminator_out (first last : Nat) (s : CellsState) (t : Int) (ht : t < 0)
    (hw : ¬ (first ≤ s.id ∧ s.id ≤ last)) :
    readCellsBody first last s t = { s with id := s.id + 1 } := by
  have h : ¬ 0 ≤ t := by omega
  simp only [readCellsBody, h, if_false, hw]

/-- Continuing vertices of a cell inside the window are stored one after the
other from the cursor on. -/
theorem readCellsLoop_vertices_in (C first last : Nat) :
    ∀ (vs rest : List Int) (s : CellsState), (∀ v ∈ vs, 0 ≤ v) → s.id < C →
      (first ≤ s.id ∧ s.id ≤ last) →
      readCellsLoop C first last (vs ++ rest) s =
        readCellsLoop C first last rest
          { data := s.data.overlay s.index (vs.map (fun t => toUnsignedInt (vertexIndex t)))
            numPoints := s.numPoints + vs.length
            id := s.id
            index := s.index + vs.length }
  | [], rest, s, _, _, _ => by
    simp [CellBuffer.overlay_nil]
  | v :: vs, rest, s, hv, hC, hw => by
    have hv0 : 0 ≤ v := hv v (by simp)
    have ih := readCellsLoop_vertices_in C first last vs rest
      { s with
        data := s.data.write s.index (toUnsignedInt (v - 1))
        index := s.index + 1
        numPoints := s.numPoints + 1 }
      (fun x hx => hv x (by simp [hx])) hC hw
    rw [List.cons_append, readCellsLoop_cons C first last v _ s hC,
      readCellsBody_vertex_in first last s v hv0 hw, ih]
    congr 1
    simp only [CellBuffer.write_eq_overlay, List.map_cons, List.length_cons]
    have e : s.data.overlay s.index
        (toUnsignedInt (vertexIndex v) :: vs.map (fun t => toUnsignedInt (vertexIndex t))) =
        (s.data.overlay s.index [toUnsignedInt (v - 1)]).overlay (s.index + 1)
          (vs.map (fun t => toUnsignedInt (vertexIndex t))) := by
      rw [show s.index + 1 = s.index + [toUnsignedInt (v - 1)].length from rfl,
        CellBuffer.overlay_append]
      simp [vertexIndex, hv0]
    rw [e]
    congr 1 <;> omega

/-- Continuing vertices of a cell outside the window change nothing. -/
theorem readCellsLoop_vertices_out (C first last : Nat) :
    ∀ (vs rest : List Int) (s : CellsState), (∀ v ∈ vs, 0 ≤ v) → s.id < C →
      ¬ (first ≤ s.id ∧ s.id ≤ last) →
      readCellsLoop C first last (vs ++ rest) s = readCellsLoop C first last rest s
  | [], rest, s, _, _, _ => by simp
  | v :: vs, rest, s, hv, hC, hw => by
    have hv0 : 0 ≤ v := hv v (by simp)
    have ih := readCellsLoop_vertices_out C first last vs rest s
      (fun x hx => hv x (by simp [hx])) hC hw
    rw [List.cons_append, readCellsLoop_cons C first last v _ s hC,
      readCellsBody_vertex_out first last s v hv0 hw, ih]

theorem cellSlots_length (c : List Int) : (cellSlots c).length = c.length + 2 := by
  simp [cellSlots]

/-- The stores of one cell: the vertices from the cursor on, then the two
slots in front of them. -/
theorem CellBuffer.overlay_cell (d : CellBuffer) (b : Nat) (V : List Nat) (x k n : Nat) :
    (((d.overlay (b + 2) V).overlay (b + 2 + V.length) [x]).overlay b [k]).overlay (b + 1) [n] =
      d.overlay b (k :: n :: (V ++ [x])) := by
  rw [CellBuffer.overlay_append, show b + 1 = b + [k].length from rfl,
    CellBuffer.overlay_append (d.overlay (b + 2) (V ++ [x])) b [k] [n],
    CellBuffer.overlay_comm d (b + 2) b (V ++ [x]) ([k] ++ [n]) (by simp),
    show b + 2 = b + ([k] ++ [n]).length from rfl, CellBuffer.overlay_append]
  rfl

/-- A whole cell inside the window is laid out as kind, vertex count and
vertices, the two leading slots being those reserved before the cursor. -/
theorem readCellsLoop_cell_in (C first last : Nat) (c rest : List Int) (s : CellsState)
    (hc : IsCell c) (hlen : c.length < 2 ^ 32) (hC : s.id < C)
    (hw : first ≤ s.id ∧ s.id ≤ last) (hnp : s.numPoints = 0) (hidx : 2 ≤ s.index) :
    readCellsLoop C first last (c ++ rest) s =
      readCellsLoop C first last rest
        { data := s.data.overlay (s.index - 2) (cellSlots c)
          numPoints := 0
          id := s.id + 1
          index := s.index + (cellSlots c).length } := by
  obtain ⟨vs, t, rfl, hvs, ht⟩ := hc
  obtain ⟨b, hb⟩ : ∃ b, s.index = b + 2 := ⟨s.index - 2, by omega⟩
  have key : ∀ s1 : CellsState, s1.id = s.id →
      readCellsLoop C first last (t :: rest) s1 =
        readCellsLoop C first last rest
          { data := ((s1.data.write s1.index (toUnsignedInt (-(t + 1)))).write
                (s1.index + 1 - (s1.numPoints + 1) - 2) POLYGON_CELL).write
                (s1.index + 1 - (s1.numPoints + 1) - 1) ((s1.numPoints + 1) % 2 ^ 32)
            numPoints := 0
            index := s1.index + 1 + 2
            id := s1.id + 1 } := by
    intro s1 h1
    rw [readCellsLoop_cons C first last t rest s1 (by omega),
      readCellsBody_terminator_in first last s1 t ht (by rw [h1]; exact hw)]
  rw [List.append_assoc, readCellsLoop_vertices_in C first last vs _ s hvs hC hw,
    List.singleton_append,
    key { data := s.data.overlay s.index (vs.map (fun t => toUnsignedInt (vertexIndex t)))
          numPoints := s.numPoints + vs.length
          id := s.id
          index := s.index + vs.length } rfl]
  congr 1
  simp only [hnp, hb, CellBuffer.write_eq_overlay, Nat.zero_add]
  have e1 : b + 2 + vs.length + 1 - (vs.length + 1) - 2 = b := by omega
  have e2 : b + 2 + vs.length + 1 - (vs.length + 1) - 1 = b + 1 := by omega
  have e3 : b + 2 - 2 = b := by omega
  have e4 : (vs.length + 1) % 2 ^ 32 = (vs ++ [t]).length := by
    rw [Nat.mod_eq_of_lt (by simpa using hlen)]
    simp
  have e5 : b + 2 + vs.length =
      b + 2 + (vs.map (fun t => toUnsignedInt (vertexIndex t))).length := by simp
  have e6 : ¬ 0 ≤ t := by omega
  rw [e1, e2, e3, e4, e5, CellBuffer.overlay_cell]
  simp [cellSlots, vertexIndex, e6]
  omega

/-- A whole cell outside the window only advances the cell counter. -/
theorem readCellsLoop_cell_out (C first last : Nat) (c rest : List Int) (s : CellsState)
    (hc : IsCell c) (hC : s.id < C) (hw : ¬ (first ≤ s.id ∧ s.id ≤ last)) :
    readCellsLoop C first last (c ++ rest) s =
      readCellsLoop C first last rest { s with id := s.id + 1 } := by
  obtain ⟨vs, t, rfl, hvs, ht⟩ := hc
  rw [List.append_assoc, readCellsLoop_vertices_out C first last vs _ s hvs hC hw,
    List.singleton_append, readCellsLoop_cons C first last t rest s hC,
    readCellsBody_terminator_out first last s t ht hw]

theorem layout_cons (c : List Int) (cs : List (List Int)) :
    layout (c :: cs) = cellSlots c ++ layout cs := by
  simp [layout]

/-- A run of whole cells, started between two cells: the cells of the window
are laid out one after the other from the two slots reserved before the
cursor on, the others leave no trace. -/
theorem readCellsLoop_cells (C first last : Nat) :
    ∀ (cells : List (List Int)) (rest : List Int) (s : CellsState),
      (∀ c ∈ cells, IsCell c ∧ c.length < 2 ^ 32) → s.id + cells.length ≤ C →
      s.numPoints = 0 → 2 ≤ s.index →
      readCellsLoop C first last (cells.flatten ++ rest) s =
        readCellsLoop C first last rest
          { data := s.data.overlay (s.index - 2) (layout (selectCells first last s.id cells))
            numPoints := 0
            id := s.id + cells.length
            index := s.index + (layout (selectCells first last s.id cells)).length }
  | [], rest, s, _, _, hnp, _ => by
    cases s
    simp only at hnp
    subst hnp
    simp [selectCells, layout, CellBuffer.overlay_nil]
  | c :: cs, rest, s, hc, hC, hnp, hidx => by
    have hc1 := hc c (by simp)
    have hcs : ∀ x ∈ cs, IsCell x ∧ x.length < 2 ^ 32 := fun x hx => hc x (by simp [hx])
    have hlt : s.id < C := by
      simp only [List.length_cons] at hC
      omega
    rw [List.flatten_cons, List.append_assoc]
    by_cases hw : first ≤ s.id ∧ s.id ≤ last
    · rw [readCellsLoop_cell_in C first last c _ s hc1.1 hc1.2 hlt hw hnp hidx,
        readCellsLoop_cells C first last cs rest
          { data := s.data.overlay (s.index - 2) (cellSlots c)
            numPoints := 0
            id := s.id + 1
            index := s.index + (cellSlots c).length } hcs
          (by simp only [List.length_cons] at hC ⊢; omega) rfl
          (by simp only; omega)]
      congr 1
      have e : s.index + (cellSlots c).length - 2 = s.index - 2 + (cellSlots c).length := by
        omega
      simp only [selectCells, hw, and_self, if_true, layout_cons, List.length_append,
        List.length_cons, e, CellBuffer.overlay_append]
      congr 1 <;> omega
    · rw [readCellsLoop_cell_out C first last c _ s hc1.1 hlt hw,
        readCellsLoop_cells C first last cs rest { s with id := s.id + 1 } hcs
          (by simp only [List.length_cons] at hC ⊢; omega) hnp hidx]
      congr 1
      simp only [selectCells, hw, if_false, List.length_cons]
      congr 1
      omega

/-! ## The cells of a stream -/

theorem cellsFrom_spec :
    ∀ (ts cur : List Int), (∀ v ∈ cur, 0 ≤ v) →
      (∀ c ∈ cellsFrom cur ts, IsCell c) ∧
      (cellsFrom cur ts).length = countNegative ts ∧
      ∃ tail, cur ++ ts = (cellsFrom cur ts).flatten ++ tail
  | [], cur, _ => by simp [cellsFrom, countNegative]
  | t :: ts, cur, hcur => by
    unfold cellsFrom
    by_cases ht : t < 0
    · rw [if_pos ht]
      obtain ⟨h1, h2, tail, h3⟩ := cellsFrom_spec ts [] (by simp)
      refine ⟨?_, ?_, tail, ?_⟩
      · intro c hc
        simp only [List.mem_cons] at hc
        rcases hc with rfl | hc
        · exact ⟨cur, t, rfl, hcur, ht⟩
        · exact h1 c hc
      · simp only [List.length_cons, h2, countNegative, List.countP_cons, ht, decide_True,
          if_true]
      · simp only [List.flatten_cons, List.append_assoc, List.singleton_append,
          List.cons_append]
        rw [← h3]
        simp
    · rw [if_neg ht]
      obtain ⟨h1, h2, tail, h3⟩ := cellsFrom_spec ts (cur ++ [t]) (by
        intro v hv
        simp only [List.mem_append, List.mem_singleton] at hv
        rcases hv with hv | rfl
        · exact hcur v hv
        · omega)
      refine ⟨h1, ?_, tail, ?_⟩
      · simp only [h2, countNegative, List.countP_cons, ht, decide_False]
        simp
      · rw [← h3]
        simp

/-- A stream with at least `C` negative tokens starts with `C` whole cells. -/
theorem streamCells_take (ts : List Int) (C : Nat) (h : C ≤ countNegative ts) :
    (∀ c ∈ (streamCells ts).take C, IsCell c) ∧ ((streamCells ts).take C).length = C ∧
      ∃ rest, ts = ((streamCells ts).take C).flatten ++ rest := by
  obtain ⟨h1, h2, tail, h3⟩ := cellsFrom_spec ts [] (by simp)
  refine ⟨fun c hc => h1 c (List.mem_of_mem_take hc), ?_, ?_⟩
  · rw [List.length_take]
    unfold streamCells
    omega
  · refine ⟨((streamCells ts).drop C).flatten ++ tail, ?_⟩
    rw [← List.append_assoc, ← List.flatten_append, List.take_append_drop]
    simpa using h3

theorem selectCells_eq_take_drop (first last : Nat) :
    ∀ (cells : List (List Int)) (id : Nat),
      selectCells first last id cells = (cells.take (last + 1 - id)).drop (first - id)
  | [], id => by simp [selectCells]
  | c :: cs, id => by
    unfold selectCells
    rw [selectCells_eq_take_drop first last cs (id + 1)]
    by_cases hw : first ≤ id ∧ id ≤ last
    · rw [if_pos hw]
      obtain ⟨k, hk⟩ : ∃ k, last + 1 - id = k + 1 := ⟨last - id, by omega⟩
      have h0 : first - id = 0 := by omega
      have h1 : first - (id + 1) = 0 := by omega
      have h2 : last + 1 - (id + 1) = k := by omega
      rw [hk, h0, h1, h2]
      simp
    · rw [if_neg hw]
      by_cases hl : id ≤ last
      · obtain ⟨k, hk⟩ : ∃ k, last + 1 - id = k + 1 := ⟨last - id, by omega⟩
        obtain ⟨m, hm⟩ : ∃ m, first - id = m + 1 := ⟨first - id - 1, by omega⟩
        have h1 : first - (id + 1) = m := by omega
        have h2 : last + 1 - (id + 1) = k := by omega
        rw [hk, hm, h1, h2]
        simp
      · have h0 : last + 1 - id = 0 := by omega
        have h2 : last + 1 - (id + 1) = 0 := by omega
        rw [h0, h2]
        simp

theorem decSize_eq (x : Nat) (h1 : 1 ≤ x) (h2 : x < 2 ^ 64) : decSize x = x - 1 := by
  unfold decSize
  omega

/-- The cells of the window, as the loop selects them with the decremented
bounds. -/
theorem windowCells_eq_select (C first last : Nat) (ts : List Int) (hl : 1 ≤ last) :
    windowCells C first last ts =
      selectCells (first - 1) (last - 1) 0 ((streamCells ts).take C) := by
  rw [selectCells_eq_take_drop]
  unfold windowCells
  have : last - 1 + 1 - 0 = last := by omega
  rw [this]
  rfl

/-! ## The windowed decoder -/

/-- What `ReadCells` does on a stream that holds the awaited cells, for
window bounds of at least one: the cells of the window are laid out from slot
0 on, every other slot keeps its content, the tokens consumed are those of the
first `C` cells, and both bounds are left decremented in the object. -/
theorem ReadCells_spec {F : Type} (self : SWCMeshIO F) (file : Nat → List Int)
    (buffer : CellBuffer)
    (hf1 : 1 ≤ self.m_FirstCellId) (hf2 : self.m_FirstCellId < 2 ^ 64)
    (hl1 : 1 ≤ self.m_LastCellId) (hl2 : self.m_LastCellId < 2 ^ 64)
    (hneg : self.m_NumberOfCells ≤ countNegative (file self.m_FilePosition))
    (hlen : ∀ c ∈ (streamCells (file self.m_FilePosition)).take self.m_NumberOfCells,
      c.length < 2 ^ 32) :
    ∃ r, ReadCells self file buffer = some r ∧
      r.data = buffer.overlay 0 (windowSlots self.m_NumberOfCells self.m_FirstCellId
        self.m_LastCellId (file self.m_FilePosition)) ∧
      file self.m_FilePosition =
        ((streamCells (file self.m_FilePosition)).take self.m_NumberOfCells).flatten ++ r.rest ∧
      r.obj = { self with
        m_FirstCellId := self.m_FirstCellId - 1
        m_LastCellId := self.m_LastCellId - 1 } := by
  obtain ⟨hc, hlenC, rest, hts⟩ :=
    streamCells_take (file self.m_FilePosition) self.m_NumberOfCells hneg
  have run := readCellsLoop_cells self.m_NumberOfCells (self.m_FirstCellId - 1)
    (self.m_LastCellId - 1) ((streamCells (file self.m_FilePosition)).take self.m_NumberOfCells)
    rest { data := buffer, numPoints := 0, id := 0, index := 2 }
    (fun c h => ⟨hc c h, hlen c h⟩) (by simp [hlenC]) rfl (by simp)
  have fin := run.trans (readCellsLoop_done _ _ _ rest _ (by simp [hlenC]))
  have e : ReadCells self file buffer =
      match readCellsLoop self.m_NumberOfCells (self.m_FirstCellId - 1) (self.m_LastCellId - 1)
        (((streamCells (file self.m_FilePosition)).take self.m_NumberOfCells).flatten ++ rest)
        { data := buffer, numPoints := 0, id := 0, index := 2 } with
      | none => none
      | some r => some { obj := { self with
                           m_FirstCellId := self.m_FirstCellId - 1
                           m_LastCellId := self.m_LastCellId - 1 },
                         data := r.1.data, rest := r.2 } := by
    rw [← hts]
    unfold ReadCells
    simp only [decSize_eq _ hf1 hf2, decSize_eq _ hl1 hl2]
  rw [fin] at e
  refine ⟨_, e, ?_, hts, rfl⟩
  simp only [windowSlots, windowCells_eq_select _ _ _ _ hl1]

theorem toUnsignedInt_vertexIndex_pos (t : Int) (h1 : 1 ≤ t) (h2 : t < 2 ^ 31) :
    (toUnsignedInt (vertexIndex t) : Int) = t - 1 := by
  have h0 : (0 : Int) ≤ t := by omega
  simp only [toUnsignedInt, vertexIndex, h0, if_true]
  omega

theorem toUnsignedInt_vertexIndex_neg (t : Int) (h1 : t < 0) (h2 : -2 ^ 31 ≤ t) :
    (toUnsignedInt (vertexIndex t) : Int) = -(t + 1) := by
  have h0 : ¬ (0 : Int) ≤ t := by omega
  simp only [toUnsignedInt, vertexIndex, h0, if_false]
  omega

/-- C7: on a token stream with at least `C` negative tokens, and a window
given 1-based as `first ≤ last`, `ReadCells` writes exactly the cells whose
0-based position lies in `[first - 1, last - 1]`, in stream order and
contiguously from slot 0, each cell of `k` vertices as `POLYGON_CELL`, `k` and
its vertices; every slot past these keeps its content, so that cells outside
the window write nothing. A token `t ≥ 1` contributes `t - 1` and a negative
token contributes `-(t + 1)`. The bounds are `SizeValueType` values and no
cell has `2 ^ 32` vertices or more. -/
theorem ReadCells_window {F : Type} (self : SWCMeshIO F) (file : Nat → List Int)
    (buffer : CellBuffer)
    (hfirst : 1 ≤ self.m_FirstCellId) (hwin : self.m_FirstCellId ≤ self.m_LastCellId)
    (hlast : self.m_LastCellId < 2 ^ 64)
    (hneg : self.m_NumberOfCells ≤ countNegative (file self.m_FilePosition))
    (hlen : ∀ c ∈ (streamCells (file self.m_FilePosition)).take self.m_NumberOfCells,
      c.length < 2 ^ 32) :
    ∃ r, ReadCells self file buffer = some r ∧
      (∀ j, j < (windowSlots self.m_NumberOfCells self.m_FirstCellId self.m_LastCellId
          (file self.m_FilePosition)).length →
        r.data j = (windowSlots self.m_NumberOfCells self.m_FirstCellId self.m_LastCellId
          (file self.m_FilePosition))[j]?) ∧
      (∀ j, (windowSlots self.m_NumberOfCells self.m_FirstCellId self.m_LastCellId
          (file self.m_FilePosition)).length ≤ j → r.data j = buffer j) ∧
      (∀ t : Int, 1 ≤ t → t < 2 ^ 31 → (toUnsignedInt (vertexIndex t) : Int) = t - 1) ∧
      (∀ t : Int, t < 0 → -2 ^ 31 ≤ t → (toUnsignedInt (vertexIndex t) : Int) = -(t + 1)) := by
  obtain ⟨r, e, hd, _, _⟩ := ReadCells_spec self file buffer hfirst (by omega) (by omega) hlast
    hneg hlen
  refine ⟨r, e, ?_, ?_, toUnsignedInt_vertexIndex_pos, toUnsignedInt_vertexIndex_neg⟩
  · intro j hj
    rw [hd]
    simp [CellBuffer.overlay, hj]
  · intro j hj
    rw [hd]
    simp only [CellBuffer.overlay]
    rw [if_neg (by omega)]

theorem ReadCells_window_witness :
    ∃ r, ReadCells sampleCellsObject sampleStream CellBuffer.fresh = some r ∧
      (∀ j, j < 9 → r.data j = [4, 2, 3, 4, 4, 3, 5, 6, 7][j]?) ∧
      (∀ j, 9 ≤ j → r.data j = none) := by
  obtain ⟨r, e, h1, h2, _⟩ := ReadCells_window sampleCellsObject sampleStream CellBuffer.fresh
    (by decide) (by decide) (by decide) (by decide) (by decide)
  exact ⟨r, e, h1, h2⟩

/-! ## Reading the cells back from the buffer -/

theorem CellBuffer.slots_overlay_take (d : CellBuffer) (L : List Nat) :
    ∀ n, n ≤ L.length → (d.overlay 0 L).slots n = L.take n
  | 0, _ => by simp [CellBuffer.slots]
  | n + 1, h => by
    have ih := CellBuffer.slots_overlay_take d L n (by omega)
    unfold CellBuffer.slots at ih ⊢
    have hn : (d.overlay 0 L) n = L[n]? := by
      simp only [CellBuffer.overlay]
      rw [if_pos (by omega)]
      rfl
    rw [List.range_succ, List.filterMap_append, ih, List.take_succ]
    congr 1
    simp only [List.filterMap_cons, List.filterMap_nil, hn]
    cases L[n]? <;> rfl

/-- The written part of a fresh or used buffer, read back as a list, is the
list that was laid over it. -/
theorem CellBuffer.slots_overlay (d : CellBuffer) (L : List Nat) :
    (d.overlay 0 L).slots L.length = L := by
  rw [CellBuffer.slots_overlay_take d L L.length (Nat.le_refl _), List.take_length]

theorem vertexLists_cons (n a k : Nat) (rest : List Nat) :
    vertexLists (n + 1) (a :: k :: rest) = rest.take k :: vertexLists n (rest.drop k) := rfl

/-- Reading a laid out list of cells back gives the vertex slots of every
cell. -/
theorem vertexLists_layout :
    ∀ (cells : List (List Int)) (n : Nat), cells.length ≤ n →
      vertexLists n (layout cells) =
        cells.map (fun c => c.map (fun t => toUnsignedInt (vertexIndex t)))
  | [], n, _ => by
    cases n <;> simp [layout, vertexLists]
  | c :: cs, 0, h => by simp at h
  | c :: cs, n + 1, h => by
    have ih := vertexLists_layout cs n (by simpa using h)
    have hl : c.length = (c.map (fun t => toUnsignedInt (vertexIndex t))).length := by simp
    rw [layout_cons]
    show vertexLists (n + 1) (POLYGON_CELL :: c.length ::
      (c.map (fun t => toUnsignedInt (vertexIndex t)) ++ layout cs)) = _
    rw [vertexLists_cons, hl, List.take_left, List.drop_left, ih]
    rfl

theorem layout_length (cells : List (List Int)) : (layout cells).length = slotCount cells := by
  induction cells with
  | nil => simp [layout, slotCount]
  | cons c cs ih =>
    rw [layout_cons, List.length_append, ih, cellSlots_length]
    simp [slotCount]

/-! ## Encoding and decoding -/

theorem encodeCell_concat (vs : List Nat) (v : Nat) :
    encodeCell (vs ++ [v]) = vs.map (fun (x : Nat) => (x : Int) + 1) ++ [-((v : Int) + 1)] := by
  simp [encodeCell]

theorem encodeCell_isCell (c : List Nat) (h : c ≠ []) :
    IsCell (encodeCell c) ∧ (encodeCell c).length = c.length := by
  obtain ⟨vs, v, rfl⟩ : ∃ vs v, c = vs ++ [v] :=
    ⟨c.dropLast, c.getLast h, (List.dropLast_append_getLast h).symm⟩
  rw [encodeCell_concat]
  refine ⟨⟨_, _, rfl, ?_, ?_⟩, by simp⟩
  · intro x hx
    simp only [List.mem_map] at hx
    obtain ⟨y, _, rfl⟩ := hx
    omega
  · omega

/-- Decoding the tokens of an encoded cell gives its vertices back. -/
theorem decode_encodeCell (c : List Nat) (h : c ≠ []) (hv : ∀ v ∈ c, v + 1 < 2 ^ 31) :
    (encodeCell c).map (fun t => toUnsignedInt (vertexIndex t)) = c := by
  obtain ⟨vs, v, rfl⟩ : ∃ vs v, c = vs ++ [v] :=
    ⟨c.dropLast, c.getLast h, (List.dropLast_append_getLast h).symm⟩
  rw [encodeCell_concat]
  have hpos : ∀ x : Nat, x + 1 < 2 ^ 31 → toUnsignedInt (vertexIndex ((x : Int) + 1)) = x := by
    intro x hx
    have h0 : (0 : Int) ≤ (x : Int) + 1 := by omega
    simp only [toUnsignedInt, vertexIndex, h0, if_true]
    omega
  have hneg : ∀ x : Nat, x + 1 < 2 ^ 31 →
      toUnsignedInt (vertexIndex (-((x : Int) + 1))) = x := by
    intro x hx
    have h0 : ¬ (0 : Int) ≤ -((x : Int) + 1) := by omega
    simp only [toUnsignedInt, vertexIndex, h0, if_false]
    omega
  simp only [List.map_append, List.map_map, List.map_cons, List.map_nil]
  rw [hneg v (hv v (by simp))]
  congr 1
  rw [List.map_congr_left (g := id)]
  · simp
  · intro x hx
    exact hpos x (hv x (by simp [hx]))

theorem cellsFrom_cons_nonneg (cur : List Int) (v : Int) (ts : List Int) (h : ¬ v < 0) :
    cellsFrom cur (v :: ts) = cellsFrom (cur ++ [v]) ts := by
  simp [cellsFrom, h]

theorem cellsFrom_cell :
    ∀ (vs cur : List Int) (t : Int) (rest : List Int), (∀ v ∈ vs, 0 ≤ v) → t < 0 →
      cellsFrom cur (vs ++ t :: rest) = (cur ++ vs ++ [t]) :: cellsFrom [] rest
  | [], cur, t, rest, _, ht => by simp [cellsFrom, ht]
  | v :: vs, cur, t, rest, hv, ht => by
    have hv0 : ¬ v < 0 := by
      have := hv v (by simp)
      omega
    have ih := cellsFrom_cell vs (cur ++ [v]) t rest (fun x hx => hv x (by simp [hx])) ht
    rw [List.cons_append, cellsFrom_cons_nonneg cur v _ hv0, ih]
    simp

/-- The cells of a stream made of whole cells are these cells. -/
theorem streamCells_flatten :
    ∀ (cells : List (List Int)), (∀ c ∈ cells, IsCell c) → streamCells cells.flatten = cells
  | [], _ => by simp [streamCells, cellsFrom]
  | c :: cs, h => by
    obtain ⟨vs, t, rfl, hvs, ht⟩ := h c (by simp)
    have ih := streamCells_flatten cs (fun x hx => h x (by simp [hx]))
    unfold streamCells at ih ⊢
    rw [List.flatten_cons, List.append_assoc, List.singleton_append,
      cellsFrom_cell vs [] t _ hvs ht, ih]
    simp

theorem slotCount_map_encodeCell (cells : List (List Nat)) (hne : ∀ c ∈ cells, c ≠ []) :
    slotCount (cells.map encodeCell) = slotCount cells := by
  induction cells with
  | nil => rfl
  | cons c cs ih =>
    have h1 := (encodeCell_isCell c (hne c (by simp))).2
    have h2 := ih (fun x hx => hne x (by simp [hx]))
    simp only [slotCount, List.map_cons, List.sum_cons, List.map_map] at h2 ⊢
    rw [h1, h2]

theorem streamCells_length (ts : List Int) : (streamCells ts).length = countNegative ts :=
  (cellsFrom_spec ts [] (by simp)).2.1

/-- What `ReadCells` hands back for a window, read as vertex lists: the
decoded vertices of the cells of the window. -/
theorem ReadCells_vertexLists {F : Type} (self : SWCMeshIO F) (file : Nat → List Int)
    (buffer : CellBuffer)
    (hf1 : 1 ≤ self.m_FirstCellId) (hf2 : self.m_FirstCellId < 2 ^ 64)
    (hl1 : 1 ≤ self.m_LastCellId) (hl2 : self.m_LastCellId < 2 ^ 64)
    (hneg : self.m_NumberOfCells ≤ countNegative (file self.m_FilePosition))
    (hlen : ∀ c ∈ (streamCells (file self.m_FilePosition)).take self.m_NumberOfCells,
      c.length < 2 ^ 32) :
    ∃ r, ReadCells self file buffer = some r ∧
      vertexLists self.m_NumberOfCells (r.data.slots (windowSlots self.m_NumberOfCells
          self.m_FirstCellId self.m_LastCellId (file self.m_FilePosition)).length) =
        (windowCells self.m_NumberOfCells self.m_FirstCellId self.m_LastCellId
          (file self.m_FilePosition)).map
            (fun c => c.map (fun t => toUnsignedInt (vertexIndex t))) := by
  obtain ⟨r, e, hd, _, _⟩ := ReadCells_spec self file buffer hf1 hf2 hl1 hl2 hneg hlen
  refine ⟨r, e, ?_⟩
  rw [hd, CellBuffer.slots_overlay]
  apply vertexLists_layout
  unfold windowCells
  simp only [List.length_drop, List.length_take]
  omega

/-- C8: for every sequence of cells, each a non-empty list of 0-based point
indices, the token stream of the cell serializer (every vertex but the last as
`index + 1`, the last as `-(index + 1)`), decoded by `ReadCells` over the full
window, gives back the original vertex lists. Every `index + 1` is an `int`,
no cell has `2 ^ 32` vertices or more and the number of cells is a
`SizeValueType` value. -/
theorem ReadCells_decodes_encoded {F : Type} (self : SWCMeshIO F) (cells : List (List Nat))
    (buffer : CellBuffer)
    (hne : ∀ c ∈ cells, c ≠ []) (hv : ∀ c ∈ cells, ∀ v ∈ c, v + 1 < 2 ^ 31)
    (hlen : ∀ c ∈ cells, c.length < 2 ^ 32) (hC : cells.length < 2 ^ 64) :
    ∃ r, ReadCells { self with
          m_NumberOfCells := cells.length
          m_FirstCellId := 1
          m_LastCellId := cells.length } (fun _ => encodeCells cells) buffer = some r ∧
      vertexLists cells.length (r.data.slots (slotCount cells)) = cells := by
  have hE : ∀ c ∈ cells.map encodeCell, IsCell c := by
    intro c hc
    obtain ⟨c', hc', rfl⟩ := List.mem_map.1 hc
    exact (encodeCell_isCell c' (hne c' hc')).1
  have hs : streamCells (encodeCells cells) = cells.map encodeCell :=
    streamCells_flatten _ hE
  have hdec : (cells.map encodeCell).map
      (fun c => c.map (fun t => toUnsignedInt (vertexIndex t))) = cells := by
    rw [List.map_map, List.map_congr_left (g := id)]
    · simp
    · intro c hc
      exact decode_encodeCell c (hne c hc) (hv c hc)
  have hslots : (layout (cells.map encodeCell)).length = slotCount cells := by
    rw [layout_length, slotCount_map_encodeCell cells hne]
  cases hcells : cells with
  | nil =>
    refine ⟨_, rfl, ?_⟩
    simp [vertexLists]
  | cons c0 cs0 =>
    rw [← hcells]
    have hpos : 1 ≤ cells.length := by
      rw [hcells]
      simp
    obtain ⟨r, e, hr⟩ := ReadCells_vertexLists
      { self with
        m_NumberOfCells := cells.length
        m_FirstCellId := 1
        m_LastCellId := cells.length } (fun _ => encodeCells cells) buffer
      (Nat.le_refl 1) (by show 1 < 2 ^ 64; norm_num) hpos hC
      (by
        show cells.length ≤ countNegative (encodeCells cells)
        rw [← streamCells_length, hs]
        simp)
      (by
        show ∀ c ∈ (streamCells (encodeCells cells)).take cells.length, c.length < 2 ^ 32
        intro c hc
        rw [hs] at hc
        obtain ⟨c', hc', rfl⟩ := List.mem_map.1 (List.mem_of_mem_take hc)
        rw [(encodeCell_isCell c' (hne c' hc')).2]
        exact hlen c' hc')
    refine ⟨r, e, ?_⟩
    have hw : windowCells cells.length 1 cells.length (encodeCells cells) =
        cells.map encodeCell := by
      unfold windowCells
      rw [hs, List.take_take, Nat.min_self, List.take_of_length_le (by simp)]
      rfl
    dsimp only at hr
    simp only [windowSlots, hw, hslots, hdec] at hr
    exact hr

theorem ReadCells_decodes_encoded_witness :
    ∃ r, ReadCells { sampleObject with
          m_NumberOfCells := 3
          m_FirstCellId := 1
          m_LastCellId := 3 } (fun _ => [1, 2, -3, -6, 4, -5]) CellBuffer.fresh = some r ∧
      vertexLists 3 (r.data.slots 12) = [[0, 1, 2], [5], [3, 4]] :=
  ReadCells_decodes_encoded sampleObject [[0, 1, 2], [5], [3, 4]] CellBuffer.fresh
    (by decide) (by decide) (by decide) (by decide)

theorem take_drop_append_drop {α : Type} (l : List α) (a n : Nat) (h1 : a ≤ n)
    (h2 : n ≤ l.length) : (l.take n).drop a ++ l.drop n = l.drop a := by
  conv_rhs => rw [← List.take_append_drop n l]
  rw [List.drop_append_of_le_length]
  rw [List.length_take]
  omega

/-- C9: for a token stream with `C` cells and `0 ≤ a ≤ b < C`, decoding the
windows `[a, b]` and `[b + 1, C - 1]` (0-based), each into a fresh buffer of
its own size, gives vertex lists whose concatenation is the vertex lists of
the full window `[0, C - 1]` from cell `a` on. The bounds are `SizeValueType`
values and no cell has `2 ^ 32` vertices or more. -/
theorem ReadCells_window_partition {F : Type} (self : SWCMeshIO F) (file : Nat → List Int)
    (a b : Nat) (hab : a ≤ b) (hb : b < self.m_NumberOfCells)
    (hC : self.m_NumberOfCells + 1 < 2 ^ 64)
    (hneg : self.m_NumberOfCells ≤ countNegative (file self.m_FilePosition))
    (hlen : ∀ c ∈ (streamCells (file self.m_FilePosition)).take self.m_NumberOfCells,
      c.length < 2 ^ 32) :
    ∃ r1 r2 r0,
      ReadCells { self with m_FirstCellId := a + 1, m_LastCellId := b + 1 } file
        CellBuffer.fresh = some r1 ∧
      ReadCells { self with m_FirstCellId := b + 2, m_LastCellId := self.m_NumberOfCells } file
        CellBuffer.fresh = some r2 ∧
      ReadCells { self with m_FirstCellId := 1, m_LastCellId := self.m_NumberOfCells } file
        CellBuffer.fresh = some r0 ∧
      vertexLists self.m_NumberOfCells (r1.data.slots (windowSlots self.m_NumberOfCells
          (a + 1) (b + 1) (file self.m_FilePosition)).length) ++
        vertexLists self.m_NumberOfCells (r2.data.slots (windowSlots self.m_NumberOfCells
          (b + 2) self.m_NumberOfCells (file self.m_FilePosition)).length) =
        (vertexLists self.m_NumberOfCells (r0.data.slots (windowSlots self.m_NumberOfCells
          1 self.m_NumberOfCells (file self.m_FilePosition)).length)).drop a := by
  obtain ⟨r1, e1, h1⟩ := ReadCells_vertexLists
    { self with m_FirstCellId := a + 1, m_LastCellId := b + 1 } file CellBuffer.fresh
    (by simp) (by simp only; omega) (by simp) (by simp only; omega) hneg hlen
  obtain ⟨r2, e2, h2⟩ := ReadCells_vertexLists
    { self with m_FirstCellId := b + 2, m_LastCellId := self.m_NumberOfCells } file
    CellBuffer.fresh (by simp) (by simp only; omega) (by simp only; omega)
    (by simp only; omega) hneg hlen
  obtain ⟨r0, e0, h0⟩ := ReadCells_vertexLists
    { self with m_FirstCellId := 1, m_LastCellId := self.m_NumberOfCells } file
    CellBuffer.fresh (by simp) (by simp) (by simp only; omega) (by simp only; omega) hneg hlen
  refine ⟨r1, r2, r0, e1, e2, e0, ?_⟩
  dsimp only at h1 h2 h0
  rw [h1, h2, h0, ← List.map_append, ← List.map_drop]
  congr 1
  have hY : ((streamCells (file self.m_FilePosition)).take self.m_NumberOfCells).length =
      self.m_NumberOfCells := by
    rw [List.length_take, streamCells_length]
    omega
  unfold windowCells
  simp only [Nat.add_sub_cancel, List.drop_zero]
  have ht : ((streamCells (file self.m_FilePosition)).take self.m_NumberOfCells).take
      self.m_NumberOfCells =
      (streamCells (file self.m_FilePosition)).take self.m_NumberOfCells := by
    rw [List.take_take, Nat.min_self]
  rw [ht, show b + 2 - 1 = b + 1 from rfl]
  exact take_drop_append_drop _ a (b + 1) (by omega) (by omega)

theorem ReadCells_window_partition_witness :
    ∃ r1 r2 r0,
      ReadCells { sampleCellsObject with m_FirstCellId := 1, m_LastCellId := 2 } sampleStream
        CellBuffer.fresh = some r1 ∧
      ReadCells { sampleCellsObject with m_FirstCellId := 3, m_LastCellId := 3 } sampleStream
        CellBuffer.fresh = some r2 ∧
      ReadCells { sampleCellsObject with m_FirstCellId := 1, m_LastCellId := 3 } sampleStream
        CellBuffer.fresh = some r0 ∧
      vertexLists 3 (r1.data.slots 9) ++ vertexLists 3 (r2.data.slots 5) =
        (vertexLists 3 (r0.data.slots 14)).drop 0 :=
  ReadCells_window_partition sampleCellsObject sampleStream 0 1 (by decide) (by decide)
    (by decide) (by decide) (by decide)

/-- C10, as stated, fails: on the sample object with the 1-based window
`[2, 3]` the first call leaves the bounds `1` and `2` in the object, and a
second call on the object it left, with the same stream and a fresh buffer,
writes other cells: slot 2 holds `3` after the first call and `0` after the
second. -/
theorem ReadCells_second_call_differs :
    ∃ r1 r2, ReadCells sampleCellsObject sampleStream CellBuffer.fresh = some r1 ∧
      ReadCells r1.obj sampleStream CellBuffer.fresh = some r2 ∧
      sampleCellsObject.m_FirstCellId = 2 ∧ sampleCellsObject.m_LastCellId = 3 ∧
      r1.obj.m_FirstCellId = 1 ∧ r1.obj.m_LastCellId = 2 ∧
      r1.data 2 = some 3 ∧ r2.data 2 = some 0 :=
  ⟨_, _, rfl, rfl, rfl, rfl, rfl, rfl, rfl, rfl⟩

/-- C10, amended: `ReadCells` decrements both window bounds in the object
and changes no other member. With both bounds at least 2, a second call with
no intervening change therefore lays out the cells at the 0-based positions
`[first - 2, last - 2]`, where the first call laid out those at
`[first - 1, last - 1]`; both calls leave the slots past their cells as they
found them. The stream holds the awaited cells, none of `2 ^ 32` vertices or
more, and the bounds are `SizeValueType` values. -/
theorem ReadCells_twice {F : Type} (self : SWCMeshIO F) (file : Nat → List Int)
    (buffer : CellBuffer)
    (hf1 : 2 ≤ self.m_FirstCellId) (hf2 : self.m_FirstCellId < 2 ^ 64)
    (hl1 : 2 ≤ self.m_LastCellId) (hl2 : self.m_LastCellId < 2 ^ 64)
    (hneg : self.m_NumberOfCells ≤ countNegative (file self.m_FilePosition))
    (hlen : ∀ c ∈ (streamCells (file self.m_FilePosition)).take self.m_NumberOfCells,
      c.length < 2 ^ 32) :
    ∃ r1 r2, ReadCells self file buffer = some r1 ∧
      ReadCells r1.obj file buffer = some r2 ∧
      r1.obj = { self with
        m_FirstCellId := self.m_FirstCellId - 1
        m_LastCellId := self.m_LastCellId - 1 } ∧
      r2.obj = { self with
        m_FirstCellId := self.m_FirstCellId - 2
        m_LastCellId := self.m_LastCellId - 2 } ∧
      r1.data = buffer.overlay 0 (windowSlots self.m_NumberOfCells self.m_FirstCellId
        self.m_LastCellId (file self.m_FilePosition)) ∧
      r2.data = buffer.overlay 0 (windowSlots self.m_NumberOfCells (self.m_FirstCellId - 1)
        (self.m_LastCellId - 1) (file self.m_FilePosition)) := by
  obtain ⟨r1, e1, d1, _, o1⟩ := ReadCells_spec self file buffer (by omega) hf2 (by omega) hl2
    hneg hlen
  obtain ⟨r2, e2, d2, _, o2⟩ := ReadCells_spec
    { self with
      m_FirstCellId := self.m_FirstCellId - 1
      m_LastCellId := self.m_LastCellId - 1 } file buffer
    (by simp only; omega) (by simp only; omega) (by simp only; omega) (by simp only; omega)
    hneg hlen
  refine ⟨r1, r2, e1, ?_, o1, ?_, d1, d2⟩
  · rw [o1]
    exact e2
  · rw [o2]
    rfl

theorem ReadCells_twice_witness :
    ∃ r1 r2, ReadCells sampleCellsObject sampleStream CellBuffer.fresh = some r1 ∧
      ReadCells r1.obj sampleStream CellBuffer.fresh = some r2 ∧
      r1.data = CellBuffer.fresh.overlay 0 [4, 2, 3, 4, 4, 3, 5, 6, 7] ∧
      r2.data = CellBuffer.fresh.overlay 0 [4, 3, 0, 1, 2, 4, 2, 3, 4] := by
  obtain ⟨r1, r2, e1, e2, _, _, d1, d2⟩ := ReadCells_twice sampleCellsObject sampleStream
    CellBuffer.fresh (by decide) (by decide) (by decide) (by decide) (by decide) (by decide)
  exact ⟨r1, r2, e1, e2, d1, d2⟩

/-! ## Lines with a `#` anywhere -/

theorem find_first_of_mem :
    ∀ (l : List Char), '#' ∈ l →
      ∃ k, find_first_of l '#' = some k ∧ l.drop (k + 1) = afterFirstHash l
  | [], h => by simp at h
  | x :: xs, h => by
    by_cases hx : x = '#'
    · refine ⟨0, by simp [find_first_of, hx], ?_⟩
      simp [afterFirstHash, hx]
    · have hxs : '#' ∈ xs := by
        rcases List.mem_cons.1 h with e | e
        · exact absurd e.symm hx
        · exact e
      obtain ⟨k, hk, hd⟩ := find_first_of_mem xs hxs
      refine ⟨k + 1, by simp [find_first_of, hx, hk], ?_⟩
      simp only [afterFirstHash] at hd ⊢
      rw [List.dropWhile_cons_of_pos (by simpa using hx)]
      simpa using hd

theorem find_first_of_not_mem :
    ∀ (l : List Char), '#' ∉ l → find_first_of l '#' = none
  | [], _ => rfl
  | x :: xs, h => by
    have hx : x ≠ '#' := fun e => h (by simp [e])
    have hxs : '#' ∉ xs := fun e => h (by simp [e])
    simp [find_first_of, hx, find_first_of_not_mem xs hxs]

/-- One turn of the header loop on a stream that starts with a line holding a
`#`: the line is consumed and its text after the first `#` is appended. -/
theorem headerBody_hash (st : HeaderState) (l t : List Char)
    (hin : st.inputFile = IStream.opened (l ++ '\n' :: t))
    (hh : '#' ∈ l) (hn : '\n' ∉ l) :
    headerBody st =
      { inputFile := IStream.opened t, line := l, inHeader := st.inHeader,
        m_HeaderContent := st.m_HeaderContent ++ [afterFirstHash l] } := by
  have hg : getline st.inputFile st.line = (IStream.opened t, l) := by
    simp [getline, hin, IStream.opened, IStream.good, splitLine_append_newline l t hn]
  obtain ⟨k, hk, hd⟩ := find_first_of_mem l hh
  unfold headerBody
  simp only [hg, hk, hd]

/-- The header loop over a run of lines that each hold a `#`: it leaves these
lines behind it, their texts after the first `#` appended, and goes on in the
header with the input `rest` that follows them. -/
theorem headerLoop_hash_lines (rest : List Char) :
    ∀ (ls : List (List Char)), (∀ l ∈ ls, '#' ∈ l ∧ '\n' ∉ l) →
      ∀ (fuel : Nat) (st st' : HeaderState),
        st.inputFile = IStream.opened (joinLines ls ++ rest) →
        st.inHeader = true → headerLoop fuel st = some st' →
        ∃ fuel' line', headerLoop fuel'
          { inputFile := IStream.opened rest, line := line', inHeader := true,
            m_HeaderContent := st.m_HeaderContent ++ ls.map afterFirstHash } = some st'
  | [], _, fuel, st, st', hin, hh, hl => by
    refine ⟨fuel, st.line, ?_⟩
    have e : st =
        { inputFile := IStream.opened rest, line := st.line, inHeader := true,
          m_HeaderContent := st.m_HeaderContent ++ List.map afterFirstHash [] } := by
      cases st
      simp only [joinLines, List.map_nil, List.flatten_nil, List.nil_append] at hin hh ⊢
      simp [hin, hh]
    rw [← e]
    exact hl
  | l :: ls, hls, 0, st, st', hin, hh, hl => by simp [headerLoop] at hl
  | l :: ls, hls, fuel + 1, st, st', hin, hh, hl => by
    have hl1 := hls l (by simp)
    have hin' : st.inputFile = IStream.opened (l ++ '\n' :: (joinLines ls ++ rest)) := by
      rw [hin]
      simp [joinLines]
    have hb := headerBody_hash st l _ hin' hl1.1 hl1.2
    unfold headerLoop at hl
    have hc : (st.inHeader && !st.inputFile.eof) = true := by
      simp [hh, hin, IStream.eof, IStream.opened]
    rw [if_pos hc, hb] at hl
    obtain ⟨fuel', line', h'⟩ := headerLoop_hash_lines rest ls
      (fun x hx => hls x (by simp [hx])) fuel
      { inputFile := IStream.opened (joinLines ls ++ rest), line := l, inHeader := st.inHeader,
        m_HeaderContent := st.m_HeaderContent ++ [afterFirstHash l] } st' rfl hh hl
    refine ⟨fuel', line', ?_⟩
    simpa using h'

/-- The header loop reaching a line without `#` that a newline ends: the
line ends the header and is kept in `line`, the stream stands after it. -/
theorem headerLoop_data_line (d rest : List Char) (hd : '#' ∉ d) (hn : '\n' ∉ d) :
    ∀ (fuel : Nat) (st st' : HeaderState), st.inputFile = IStream.opened (d ++ '\n' :: rest) →
      st.inHeader = true → headerLoop fuel st = some st' →
      st' = { inputFile := IStream.opened rest, line := d, inHeader := false,
              m_HeaderContent := st.m_HeaderContent }
  | 0, st, st', _, _, hl => by simp [headerLoop] at hl
  | fuel + 1, st, st', hin, hh, hl => by
    have hg : getline st.inputFile st.line = (IStream.opened rest, d) := by
      simp [getline, hin, IStream.opened, IStream.good, splitLine_append_newline d rest hn]
    have hb : headerBody st =
        { inputFile := IStream.opened rest, line := d, inHeader := false,
          m_HeaderContent := st.m_HeaderContent } := by
      unfold headerBody
      simp only [hg, find_first_of_not_mem d hd]
    unfold headerLoop at hl
    have hc : (st.inHeader && !st.inputFile.eof) = true := by
      simp [hh, hin, IStream.eof, IStream.opened]
    rw [if_pos hc, hb] at hl
    cases fuel with
    | zero => simp [headerLoop] at hl
    | succ n =>
      unfold headerLoop at hl
      simp only [Bool.false_and, Bool.false_eq_true, if_false, Option.some.injEq] at hl
      exact hl.symm

/-- The header loop reaching a last line without `#` that no newline ends:
the line is read into `line` and the stream is left at its end, `eofbit`
set. -/
theorem headerLoop_data_tail (d : List Char) (hd : '#' ∉ d) (hn : '\n' ∉ d) :
    ∀ (fuel : Nat) (st st' : HeaderState), st.inputFile = IStream.opened d →
      st.inHeader = true → headerLoop fuel st = some st' →
      st' = { inputFile := { buf := [], eofbit := true, failbit := d.isEmpty }, line := d,
              inHeader := false, m_HeaderContent := st.m_HeaderContent }
  | 0, st, st', _, _, hl => by simp [headerLoop] at hl
  | fuel + 1, st, st', hin, hh, hl => by
    have hg : getline st.inputFile st.line =
        ({ buf := [], eofbit := true, failbit := d.isEmpty }, d) := by
      simp [getline, hin, IStream.opened, IStream.good, splitLine_no_newline d hn]
    have hb : headerBody st =
        { inputFile := { buf := [], eofbit := true, failbit := d.isEmpty }, line := d,
          inHeader := false, m_HeaderContent := st.m_HeaderContent } := by
      unfold headerBody
      simp only [hg, find_first_of_not_mem d hd]
    unfold headerLoop at hl
    have hc : (st.inHeader && !st.inputFile.eof) = true := by
      simp [hh, hin, IStream.eof, IStream.opened]
    rw [if_pos hc, hb] at hl
    cases fuel with
    | zero => simp [headerLoop] at hl
    | succ n =>
      unfold headerLoop at hl
      simp only [Bool.false_and, Bool.false_eq_true, if_false, Option.some.injEq] at hl
      exact hl.symm

/-! ## One record per newline-terminated data line -/

/-- The record loop entered with the stream standing before the
newline-terminated lines `ds` and an unterminated rest `tail`: it makes one
turn for the line it was entered with and one for each line of `ds`; `tail`
gets none. -/
theorem dataLoop_count {F : Type} (cv : List Char → F × Bool) (u : Nat → Locals F)
    (tail : List Char) (htail : '\n' ∉ tail) :
    ∀ (ds : List (List Char)), (∀ l ∈ ds, '\n' ∉ l) →
      ∀ (fuel : Nat) (st st' : ScanState F),
        st.inputFile = IStream.opened (joinLines ds ++ tail) →
        dataLoop cv u fuel st = some st' →
        st'.numberOfPoints = st.numberOfPoints + 1 + ds.length
  | _, _, 0, st, st', _, hl => by simp [dataLoop] at hl
  | [], _, fuel + 1, st, st', hin, hl => by
    rw [dataLoop_step cv u fuel st (by rw [hin]; rfl)] at hl
    have hg : (dataBody cv (u st.numberOfPoints) st).inputFile =
        { buf := [], eofbit := true, failbit := tail.isEmpty } := by
      show (getline st.inputFile st.line).1 = _
      simp [getline, hin, joinLines, IStream.opened, IStream.good,
        splitLine_no_newline tail htail]
    cases fuel with
    | zero => simp [dataLoop] at hl
    | succ n =>
      rw [dataLoop_exit cv u n _ (by rw [hg])] at hl
      simp only [Option.some.injEq] at hl
      rw [← hl]
      rfl
  | d :: ds, hds, fuel + 1, st, st', hin, hl => by
    rw [dataLoop_step cv u fuel st (by rw [hin]; rfl)] at hl
    have hg : (dataBody cv (u st.numberOfPoints) st).inputFile =
        IStream.opened (joinLines ds ++ tail) := by
      show (getline st.inputFile st.line).1 = _
      have hin' : st.inputFile = IStream.opened (d ++ '\n' :: (joinLines ds ++ tail)) := by
        rw [hin]
        simp [joinLines]
      simp [getline, hin', IStream.opened, IStream.good,
        splitLine_append_newline d _ (hds d (by simp))]
    have ih := dataLoop_count cv u tail htail ds (fun x hx => hds x (by simp [hx])) fuel _ st'
      hg hl
    rw [ih]
    show st.numberOfPoints + 1 + 1 + ds.length = st.numberOfPoints + 1 + (d :: ds).length
    simp only [List.length_cons]
    omega

/-- The shape of a scan. The input is a run `hs` of lines that each hold a
`#`, then lines `ds`, each ended by a newline, then a rest `tail` that no
newline ends; the first line after the run holds no `#`. The header content
is the texts after the first `#` of the lines of `hs`, and the number of
records is the number of lines of `ds`, whatever these lines hold. -/
theorem ReadMeshInformation_shape {F : Type} (cv : List Char → F × Bool)
    (u : Nat → Locals F) (self : SWCMeshIO F) (hs ds : List (List Char)) (tail : List Char)
    (hhs : ∀ l ∈ hs, '#' ∈ l ∧ '\n' ∉ l) (hds : ∀ l ∈ ds, '\n' ∉ l) (htail : '\n' ∉ tail)
    (hfirst : '#' ∉ ds.headD tail) :
    ∃ r, ReadMeshInformation cv u self (joinLines hs ++ (joinLines ds ++ tail)) = some r ∧
      r.m_HeaderContent = hs.map afterFirstHash ∧
      r.m_NumberOfPoints = ds.length := by
  obtain ⟨h, st, eh, est, e⟩ :=
    ReadMeshInformation_total cv u self (joinLines hs ++ (joinLines ds ++ tail))
  obtain ⟨fuel', line', eh'⟩ := headerLoop_hash_lines (joinLines ds ++ tail) hs hhs _ _ h rfl rfl eh
  have hhdr : st.obj.m_HeaderContent = h.m_HeaderContent :=
    dataLoop_invariant cv u (fun s => s.obj.m_HeaderContent = h.m_HeaderContent)
      (fun _ _ hp => hp) _ _ _ est rfl
  refine ⟨finishScan st, e, ?_, ?_⟩
  · show st.obj.m_HeaderContent = _
    rw [hhdr]
    cases ds with
    | nil =>
      rw [headerLoop_data_tail tail hfirst htail fuel' _ h (by simp [joinLines]) rfl eh']
      simp
    | cons d ds' =>
      rw [headerLoop_data_line d (joinLines ds' ++ tail) hfirst (hds d (by simp)) fuel' _ h
        (by simp [joinLines]) rfl eh']
      simp
  · show st.numberOfPoints = _
    cases ds with
    | nil =>
      have hh := headerLoop_data_tail tail hfirst htail fuel' _ h (by simp [joinLines]) rfl eh'
      rw [hh] at est
      rw [dataLoop_exit cv u _ _ rfl] at est
      simp only [Option.some.injEq] at est
      rw [← est]
      rfl
    | cons d ds' =>
      have hh := headerLoop_data_line d (joinLines ds' ++ tail) hfirst (hds d (by simp)) fuel' _ h
        (by simp [joinLines]) rfl eh'
      rw [hh] at est
      have hc := dataLoop_count cv u tail htail ds' (fun x hx => hds x (by simp [hx])) _ _ st
        rfl est
      rw [hc]
      simp [scanStart]
      omega

/-- Whatever the scan returns has every attribute buffer as long as the
number of records. -/
theorem ReadMeshInformation_lengths_of_result {F : Type} (cv : List Char → F × Bool)
    (u : Nat → Locals F) (self : SWCMeshIO F) (file : List Char) (r : SWCMeshIO F)
    (hr : ReadMeshInformation cv u self file = some r) :
    r.m_SampleIdentifiers.length = r.m_NumberOfPoints ∧
    r.m_TypeIdentifiers.length = r.m_NumberOfPoints ∧
    r.m_Radii.length = r.m_NumberOfPoints ∧
    r.m_ParentIdentifiers.length = r.m_NumberOfPoints ∧
    r.m_PointsBuffer.length = 3 * r.m_NumberOfPoints := by
  obtain ⟨h, st, _, est, e⟩ := ReadMeshInformation_total cv u self file
  rw [e] at hr
  simp only [Option.some.injEq] at hr
  subst hr
  have inv := dataLoop_invariant cv u
    (fun s => s.obj.m_SampleIdentifiers.length = s.numberOfPoints ∧
      s.obj.m_TypeIdentifiers.length = s.numberOfPoints ∧
      s.obj.m_Radii.length = s.numberOfPoints ∧
      s.obj.m_ParentIdentifiers.length = s.numberOfPoints ∧
      s.obj.m_PointsBuffer.length = 3 * s.numberOfPoints)
    (by
      intro s l ⟨h1, h2, h3, h4, h5⟩
      obtain ⟨e0, e1, e2, e3, e4, e5⟩ := dataBody_lengths cv l s
      rw [e0, e1, e2, e3, e4, e5]
      omega)
    _ _ _ est (by simp [scanStart])
  exact inv

/-- C11, as stated, fails: on a file whose first line has a token that is no
number and whose second line has two tokens only, the scan returns with two
records. The type identifier of the first is the `0` of the failed parse,
and all the fields after it hold the contents of uninitialised locals. -/
theorem ReadMeshInformation_malformed_lines_accepted :
    ∃ r, ReadMeshInformation fieldText sampleLocals sampleObject "1 x 0.0\n2 3\n".toList =
        some r ∧
      r.m_NumberOfPoints = 2 ∧
      r.m_SampleIdentifiers = [1, -1001] ∧
      r.m_TypeIdentifiers = [0, -1001] ∧
      r.m_PointsBuffer = [['?'], ['?'], ['?'], ['?'], ['?'], ['?']] ∧
      r.m_Radii = [['?'], ['?']] ∧
      r.m_ParentIdentifiers = [-1000, -1001] := by
  refine ⟨_, rfl, ?_⟩
  decide

/-- C11, amended: the scan raises no format error. On every input made of
lines `hs` that each hold a `#` and of lines `ds`, each ended by a newline
and the first without `#`, it returns, and every line of `ds` has got its
record whatever it holds, a line with fewer than seven tokens or with a token
that is no number included. A turn that finds the string stream failed pushes
the contents of its uninitialised locals. -/
theorem ReadMeshInformation_no_format_error {F : Type} (cv : List Char → F × Bool)
    (u : Nat → Locals F) (self : SWCMeshIO F) (hs ds : List (List Char))
    (hhs : ∀ l ∈ hs, '#' ∈ l ∧ '\n' ∉ l) (hds : ∀ l ∈ ds, '\n' ∉ l)
    (hfirst : '#' ∉ ds.headD []) :
    (∃ r, ReadMeshInformation cv u self (joinLines hs ++ joinLines ds) = some r ∧
      r.m_NumberOfPoints = ds.length ∧
      r.m_SampleIdentifiers.length = ds.length ∧
      r.m_TypeIdentifiers.length = ds.length ∧
      r.m_Radii.length = ds.length ∧
      r.m_ParentIdentifiers.length = ds.length ∧
      r.m_PointsBuffer.length = 3 * ds.length) ∧
    (∀ (l : Locals F) (st : ScanState F), st.istrm.good = false →
      (dataBody cv l st).obj.m_SampleIdentifiers =
        st.obj.m_SampleIdentifiers ++ [l.sampleIdentifier] ∧
      (dataBody cv l st).obj.m_TypeIdentifiers =
        st.obj.m_TypeIdentifiers ++ [l.typeIdentifier] ∧
      (dataBody cv l st).obj.m_PointsBuffer =
        st.obj.m_PointsBuffer ++ [l.pointComponent, l.pointComponent, l.pointComponent] ∧
      (dataBody cv l st).obj.m_Radii = st.obj.m_Radii ++ [l.radius] ∧
      (dataBody cv l st).obj.m_ParentIdentifiers =
        st.obj.m_ParentIdentifiers ++ [l.parentIdentifier]) := by
  constructor
  · obtain ⟨r, e, _, hn⟩ := ReadMeshInformation_shape cv u self hs ds [] hhs hds (by simp) hfirst
    rw [List.append_nil] at e
    obtain ⟨h1, h2, h3, h4, h5⟩ := ReadMeshInformation_lengths_of_result cv u self _ r e
    rw [hn] at h1 h2 h3 h4 h5
    exact ⟨r, e, hn, h1, h2, h3, h4, h5⟩
  · intro l st hg
    rw [dataBody_stale cv l st hg]
    exact ⟨rfl, rfl, rfl, rfl, rfl⟩

theorem ReadMeshInformation_no_format_error_witness :
    ∃ r, ReadMeshInformation fieldText sampleLocals sampleObject
        (joinLines ["# h".toList] ++ joinLines ["1 x 0.0".toList, "2 3".toList]) = some r ∧
      r.m_NumberOfPoints = 2 ∧
      r.m_ParentIdentifiers.length = 2 := by
  obtain ⟨⟨r, e, hn, _, _, _, hp, _⟩, _⟩ := ReadMeshInformation_no_format_error fieldText
    sampleLocals sampleObject ["# h".toList] ["1 x 0.0".toList, "2 3".toList]
    (by decide) (by decide) (by decide)
  exact ⟨r, e, hn, hp⟩

/-- C14, at the failing input: the scenario without the newline after its
last line. The data lines are three, the scan reports two records: the last
data line is read by the `getline` that sets `eofbit`, and the loop is left
before the line is parsed. This for every conversion, every content of the
locals and every prior state. -/
theorem ReadMeshInformation_unterminated_last_line_dropped {F : Type}
    (cv : List Char → F × Bool) (u : Nat → Locals F) (self : SWCMeshIO F) :
    ∃ r, ReadMeshInformation cv u self
        ("# test morphology\n1 1 0.0 0.0 0.0 1.0 -1\n2 3 1.0 0.0 0.0 1.0 1\n".toList ++
          "3 3 2.0 0.0 0.0 1.0 2".toList) = some r ∧
      r.m_HeaderContent = [" test morphology".toList] ∧
      r.m_NumberOfPoints = 2 ∧
      r.m_ParentIdentifiers.length = 2 := by
  obtain ⟨r, e, hh, hn⟩ := ReadMeshInformation_shape cv u self ["# test morphology".toList]
    ["1 1 0.0 0.0 0.0 1.0 -1".toList, "2 3 1.0 0.0 0.0 1.0 1".toList]
    "3 3 2.0 0.0 0.0 1.0 2".toList (by decide) (by decide) (by decide) (by decide)
  have e' : ReadMeshInformation cv u self
      ("# test morphology\n1 1 0.0 0.0 0.0 1.0 -1\n2 3 1.0 0.0 0.0 1.0 1\n".toList ++
        "3 3 2.0 0.0 0.0 1.0 2".toList) = some r := e
  have hl := (ReadMeshInformation_lengths_of_result cv u self _ r e').2.2.2.1
  rw [hn] at hl
  exact ⟨r, e', hh, hn, hl⟩

/-- C15, at the failing input: one header line and then a record line that
no newline ends. The header content is the text after the `#`, but the first
line without `#` is dropped: the scan reports no record and every buffer is
empty. This for every conversion, every content of the locals and every prior
state. -/
theorem ReadMeshInformation_first_data_line_dropped {F : Type}
    (cv : List Char → F × Bool) (u : Nat → Locals F) (self : SWCMeshIO F) :
    ∃ r, ReadMeshInformation cv u self "#a\n1 1 0.0 0.0 0.0 1.0 -1".toList = some r ∧
      r.m_HeaderContent = ["a".toList] ∧
      r.m_NumberOfPoints = 0 ∧
      r.m_SampleIdentifiers = [] ∧
      r.m_PointsBuffer = [] ∧
      r.m_ParentIdentifiers = [] := by
  obtain ⟨r, e, hh, hn⟩ := ReadMeshInformation_shape cv u self ["#a".toList] []
    "1 1 0.0 0.0 0.0 1.0 -1".toList (by decide) (by decide) (by decide) (by decide)
  have e' : ReadMeshInformation cv u self "#a\n1 1 0.0 0.0 0.0 1.0 -1".toList = some r := e
  obtain ⟨h1, _, _, h4, h5⟩ := ReadMeshInformation_lengths_of_result cv u self _ r e'
  rw [hn] at h1 h4 h5
  exact ⟨r, e', hh, hn, List.length_eq_zero.1 h1, List.length_eq_zero.1 h5,
    List.length_eq_zero.1 h4⟩

/-! ## Nothing accumulates across scans -/

theorem dataBody_agree {F : Type} (cv : List Char → F × Bool) (l : Locals F)
    (s t : ScanState F) (h : s.agree t) : (dataBody cv l s).agree (dataBody cv l t) := by
  obtain ⟨h1, h2, h3, h4, h5, h6, h7, h8, h9, h10, h11, h12, h13⟩ := h
  simp only [ScanState.agree, dataBody, h1, h2, h3, h4, h5, h6, h7, h8, h9, h10, h11, h12, h13]
  simp

theorem dataLoop_agree {F : Type} (cv : List Char → F × Bool) (u : Nat → Locals F) :
    ∀ (fuel : Nat) (s t s' : ScanState F), s.agree t → dataLoop cv u fuel s = some s' →
      ∃ t', dataLoop cv u fuel t = some t' ∧ s'.agree t'
  | 0, _, _, _, _, h => by simp [dataLoop] at h
  | fuel + 1, s, t, s', ha, h => by
    unfold dataLoop at h ⊢
    have he : t.inputFile = s.inputFile := ha.1.symm
    have hn : t.numberOfPoints = s.numberOfPoints := ha.2.2.2.1.symm
    rw [he, hn]
    split
    · next hc =>
      rw [if_pos hc] at h
      exact dataLoop_agree cv u fuel _ _ s' (dataBody_agree cv _ s t ha) h
    · next hc =>
      rw [if_neg hc] at h
      simp only [Option.some.injEq] at h
      exact ⟨t, rfl, h ▸ ha⟩

/-- C19: what the scan yields does not depend on what an earlier scan or a
setter left in the object. From any two prior states `self` and `self'`, a
freshly constructed object among them, the scan of the same file gives the
same header content, attribute buffers, point buffer, map from point index to
sample identifier, `N`, `C` and cell buffer size hint. -/
theorem ReadMeshInformation_independent_of_prior_state {F : Type}
    (cv : List Char → F × Bool) (u : Nat → Locals F) (self self' : SWCMeshIO F)
    (file : List Char) :
    ∃ r r', ReadMeshInformation cv u self file = some r ∧
      ReadMeshInformation cv u self' file = some r' ∧
      r.m_HeaderContent = r'.m_HeaderContent ∧
      r.m_SampleIdentifiers = r'.m_SampleIdentifiers ∧
      r.m_TypeIdentifiers = r'.m_TypeIdentifiers ∧
      r.m_Radii = r'.m_Radii ∧
      r.m_ParentIdentifiers = r'.m_ParentIdentifiers ∧
      r.m_PointsBuffer = r'.m_PointsBuffer ∧
      r.m_PointIndexToSampleIdentifier = r'.m_PointIndexToSampleIdentifier ∧
      r.m_NumberOfPoints = r'.m_NumberOfPoints ∧
      r.m_NumberOfCells = r'.m_NumberOfCells ∧
      r.m_CellBufferSize = r'.m_CellBufferSize := by
  obtain ⟨h, st, eh, est, e⟩ := ReadMeshInformation_total cv u self file
  have ha : (scanStart self h).agree (scanStart self' h) := by
    simp [ScanState.agree, scanStart]
  obtain ⟨st', est', hs⟩ := dataLoop_agree cv u _ _ _ st ha est
  have e' : ReadMeshInformation cv u self' file = some (finishScan st') := by
    unfold ReadMeshInformation
    rw [eh]
    simp only
    rw [est']
  obtain ⟨_, _, _, h4, h5, h6, h7, h8, h9, h10, h11, h12, h13⟩ := hs
  exact ⟨finishScan st, finishScan st', e, e', h6, h7, h8, h9, h10, h11, h12, h4, h5, h13⟩

/-! ## Setters -/

theorem resize_length {α : Type} (d : α) (v : List α) (n : Nat) :
    (resize d v n).length = n := by
  simp only [resize, List.length_append, List.length_take, List.length_replicate]
  omega

/-- The copy loop, entered with a target as long as the source that already
agrees with it below the index, leaves the source in the target. -/
theorem copyElements_eq {α : Type} (d : α) (a : List α) :
    ∀ (n ii : Nat) (t : List α), t.length = a.length → ii + n = a.length →
      t.take ii = a.take ii → copyElements d a n ii t = a
  | 0, ii, t, hl, hn, ht => by
    have hi : ii = a.length := by omega
    subst hi
    rw [← hl, List.take_length] at ht
    rw [List.take_of_length_le (Nat.le_of_eq hl.symm)] at ht
    simpa [copyElements] using ht
  | n + 1, ii, t, hl, hn, ht => by
    have hi : ii < a.length := by omega
    have hx : a[ii]? = some (a.getD ii d) := by
      simp [List.getElem?_eq_getElem hi]
    show copyElements d a n (ii + 1) (t.set ii (a.getD ii d)) = a
    apply copyElements_eq d a n (ii + 1) _ (by simp [hl]) (by omega)
    rw [List.take_succ, List.take_succ, List.set_take,
      List.set_eq_of_length_le (by simp), ht, List.getElem?_set_self (by omega), hx]

/-- A setter's resize and copy loop leave the input in the target, whatever
the target held. -/
theorem copyElements_resize {α : Type} (d : α) (a v : List α) :
    copyElements d a a.length 0 (resize d v a.length) = a :=
  copyElements_eq d a a.length 0 _ (resize_length d v a.length) (by omega) (by simp)

/-- C12: each of the five setters, from every prior content of its target
and for every input sequence, shorter, equal or longer, leaves the target
equal to the input, hence of its length and equal to it element by element,
and the matching getter returns the input. -/
theorem setters_store_input {F : Type} (zero : F) (self : SWCMeshIO F)
    (ids types parents : List Int) (radii : List F) (header : List (List Char)) :
    (GetSampleIdentifiers (SetSampleIdentifiers self ids) = ids ∧
      (SetSampleIdentifiers self ids).m_SampleIdentifiers.length = ids.length) ∧
    (GetTypeIdentifiers (SetTypeIdentifiers self types) = types ∧
      (SetTypeIdentifiers self types).m_TypeIdentifiers.length = types.length) ∧
    (GetRadii (SetRadii zero self radii) = radii ∧
      (SetRadii zero self radii).m_Radii.length = radii.length) ∧
    (GetParentIdentifiers (SetParentIdentifiers self parents) = parents ∧
      (SetParentIdentifiers self parents).m_ParentIdentifiers.length = parents.length) ∧
    (GetHeaderContent (SetHeaderContent self header) = header ∧
      (SetHeaderContent self header).m_HeaderContent.length = header.length) := by
  have h1 : (SetSampleIdentifiers self ids).m_SampleIdentifiers = ids :=
    copyElements_resize 0 ids _
  have h2 : (SetTypeIdentifiers self types).m_TypeIdentifiers = types :=
    copyElements_resize 0 types _
  have h3 : (SetRadii zero self radii).m_Radii = radii := copyElements_resize zero radii _
  have h4 : (SetParentIdentifiers self parents).m_ParentIdentifiers = parents :=
    copyElements_resize 0 parents _
  have h5 : (SetHeaderContent self header).m_HeaderContent = header :=
    copyElements_resize [] header _
  refine ⟨⟨h1, ?_⟩, ⟨h2, ?_⟩, ⟨h3, ?_⟩, ⟨h4, ?_⟩, ⟨h5, ?_⟩⟩
  · rw [h1]
  · rw [h2]
  · rw [h3]
  · rw [h4]
  · rw [h5]

/-! ## The write methods -/

theorem pointsCast_eq (k : IOComponentEnum) : pointsCast k = componentCType k := by
  cases k <;> rfl

theorem cellsCast_eq (k : IOComponentEnum) (h : k ≠ .CHAR) : cellsCast k = componentCType k := by
  cases k <;> first | rfl | exact absurd rfl h

theorem componentCType_supported (k : IOComponentEnum) :
    k ∈ supportedKinds ↔ ∃ T, componentCType k = some T := by
  cases k <;> simp [supportedKinds, componentCType]

theorem cellsCast_width (k : IOComponentEnum) (T : CType) (h : componentCType k = some T) :
    ∃ T', cellsCast k = some T' ∧ T'.sizeof = T.sizeof := by
  cases k <;> simp only [componentCType, Option.some.injEq] at h <;>
    first
    | exact absurd h (by simp)
    | (subst h; exact ⟨_, rfl, rfl⟩)

theorem WritePoints_error {F B : Type} (self : SWCMeshIO F) (fileName : List Char)
    (destination : Option (List Char)) (writeT : CType → B → List Char) (buffer : B) :
    (WritePoints self fileName destination writeT buffer).error ≠ none ↔
      fileName = [] ∨ destination = none ∨ self.m_PointComponentType ∉ supportedKinds := by
  unfold WritePoints
  cases fileName with
  | nil => simp
  | cons c cs =>
    cases destination with
    | none => simp
    | some content =>
      rw [pointsCast_eq, componentCType_supported]
      cases componentCType self.m_PointComponentType <;> simp

theorem WriteCells_error {F B : Type} (self : SWCMeshIO F) (fileName : List Char)
    (destination : Option (List Char)) (writeT : CType → B → List Char) (buffer : B) :
    (WriteCells self fileName destination writeT buffer).error ≠ none ↔
      fileName = [] ∨ destination = none ∨ self.m_CellComponentType ∉ supportedKinds := by
  unfold WriteCells
  cases fileName with
  | nil => simp
  | cons c cs =>
    cases destination with
    | none => simp
    | some content =>
      cases self.m_CellComponentType <;> simp [cellsCast, supportedKinds]

theorem WritePoints_unchanged {F B : Type} (self : SWCMeshIO F) (fileName : List Char)
    (destination : Option (List Char)) (writeT : CType → B → List Char) (buffer : B)
    (h : (WritePoints self fileName destination writeT buffer).error ≠ none) :
    (WritePoints self fileName destination writeT buffer).destination = destination := by
  unfold WritePoints at h ⊢
  cases fileName with
  | nil => rfl
  | cons c cs =>
    cases destination with
    | none => rfl
    | some content =>
      cases hk : pointsCast self.m_PointComponentType with
      | none => simp [hk]
      | some T => simp [hk] at h

theorem WriteCells_unchanged {F B : Type} (self : SWCMeshIO F) (fileName : List Char)
    (destination : Option (List Char)) (writeT : CType → B → List Char) (buffer : B)
    (h : (WriteCells self fileName destination writeT buffer).error ≠ none) :
    (WriteCells self fileName destination writeT buffer).destination = destination := by
  unfold WriteCells at h ⊢
  cases fileName with
  | nil => rfl
  | cons c cs =>
    cases destination with
    | none => rfl
    | some content =>
      cases hk : cellsCast self.m_CellComponentType with
      | none => simp [hk]
      | some T => simp [hk] at h

/-- C13: `WritePoints` and `WriteCells` raise an exception exactly when the
file name is empty, the destination cannot be opened, or the declared
component kind is none of the thirteen supported ones; when they do, the
destination is left as it was, no text being appended; for a supported kind
the text appended is the one the template writes for the buffer read at a
type of that kind's own width. `WritePoints` reads the buffer at the kind's
own type; so does `WriteCells`, except that it reads a `CHAR` buffer as
`unsigned char`, the character type of the same width. -/
theorem write_methods_failure {F B : Type} (self : SWCMeshIO F) (fileName : List Char)
    (destination : Option (List Char)) (writePointsT writeCellsT : CType → B → List Char)
    (buffer : B) :
    ((WritePoints self fileName destination writePointsT buffer).error ≠ none ↔
      fileName = [] ∨ destination = none ∨ self.m_PointComponentType ∉ supportedKinds) ∧
    ((WritePoints self fileName destination writePointsT buffer).error ≠ none →
      (WritePoints self fileName destination writePointsT buffer).destination = destination) ∧
    (∀ content T, fileName ≠ [] → destination = some content →
      componentCType self.m_PointComponentType = some T →
      WritePoints self fileName destination writePointsT buffer =
        { error := none, destination := some (content ++ writePointsT T buffer) }) ∧
    ((WriteCells self fileName destination writeCellsT buffer).error ≠ none ↔
      fileName = [] ∨ destination = none ∨ self.m_CellComponentType ∉ supportedKinds) ∧
    ((WriteCells self fileName destination writeCellsT buffer).error ≠ none →
      (WriteCells self fileName destination writeCellsT buffer).destination = destination) ∧
    (∀ content T, fileName ≠ [] → destination = some content →
      componentCType self.m_CellComponentType = some T →
      ∃ T', cellsCast self.m_CellComponentType = some T' ∧ T'.sizeof = T.sizeof ∧
        WriteCells self fileName destination writeCellsT buffer =
          { error := none, destination := some (content ++ writeCellsT T' buffer) }) ∧
    (∀ k, k ≠ IOComponentEnum.CHAR → cellsCast k = componentCType k) ∧
    cellsCast IOComponentEnum.CHAR = some CType.unsignedChar := by
  refine ⟨WritePoints_error self fileName destination writePointsT buffer,
    WritePoints_unchanged self fileName destination writePointsT buffer, ?_,
    WriteCells_error self fileName destination writeCellsT buffer,
    WriteCells_unchanged self fileName destination writeCellsT buffer, ?_,
    cellsCast_eq, rfl⟩
  · intro content T hf hd hk
    subst hd
    have : fileName.isEmpty = false := by
      cases fileName with
      | nil => exact absurd rfl hf
      | cons c cs => rfl
    simp only [WritePoints, this, pointsCast_eq, hk]
    rfl
  · intro content T hf hd hk
    subst hd
    obtain ⟨T', h1, h2⟩ := cellsCast_width _ T hk
    have : fileName.isEmpty = false := by
      cases fileName with
      | nil => exact absurd rfl hf
      | cons c cs => rfl
    refine ⟨T', h1, h2, ?_⟩
    simp only [WriteCells, this, h1]
    rfl

/-! ## What the cell loop consumes -/

/-- The cell counter goes up by one at a negative token and stays at every
other token, whatever the window. -/
theorem readCellsBody_id (first last : Nat) (s : CellsState) (t : Int) :
    (readCellsBody first last s t).id = if t < 0 then s.id + 1 else s.id := by
  unfold readCellsBody
  by_cases ht : 0 ≤ t
  · have h : ¬ t < 0 := by omega
    rw [if_pos ht, if_neg h]
    split <;> rfl
  · have h : t < 0 := by omega
    rw [if_neg ht, if_pos h]
    split <;> rfl

theorem take_append_dropThroughNegative :
    ∀ (ts : List Int) (k : Nat), takeThroughNegative k ts ++ dropThroughNegative k ts = ts
  | ts, 0 => by simp [takeThroughNegative, dropThroughNegative]
  | [], k + 1 => by simp [takeThroughNegative, dropThroughNegative]
  | t :: ts, k + 1 => by
    by_cases ht : t < 0
    · simp [takeThroughNegative, dropThroughNegative, ht,
        take_append_dropThroughNegative ts k]
    · simp [takeThroughNegative, dropThroughNegative, ht,
        take_append_dropThroughNegative ts (k + 1)]

/-- The cell loop on a stream that holds the awaited negative tokens: it
returns, the tokens left are those after the last awaited negative token, and
the same final variables come out of the stream cut after that token. -/
theorem readCellsLoop_consumes (C first last : Nat) :
    ∀ (ts : List Int) (s : CellsState), C - s.id ≤ countNegative ts →
      ∃ s', readCellsLoop C first last ts s = some (s', dropThroughNegative (C - s.id) ts) ∧
        readCellsLoop C first last (takeThroughNegative (C - s.id) ts) s = some (s', [])
  | [], s, h => by
    have h0 : C - s.id = 0 := by
      simp [countNegative] at h
      omega
    have hc : ¬ s.id < C := by omega
    refine ⟨s, ?_, ?_⟩
    · rw [h0, readCellsLoop_done C first last [] s hc]
      rfl
    · rw [h0]
      exact readCellsLoop_done C first last _ s hc
  | t :: ts, s, h => by
    by_cases hc : s.id < C
    · obtain ⟨k, hk⟩ : ∃ k, C - s.id = k + 1 := ⟨C - s.id - 1, by omega⟩
      have hid := readCellsBody_id first last s t
      by_cases ht : t < 0
      · rw [if_pos ht] at hid
        have hcount : countNegative (t :: ts) = countNegative ts + 1 := by
          simp [countNegative, List.countP_cons, ht]
        obtain ⟨s', h1, h2⟩ := readCellsLoop_consumes C first last ts
          (readCellsBody first last s t) (by rw [hid]; omega)
        have hk' : C - (readCellsBody first last s t).id = k := by
          rw [hid]
          omega
        rw [hk'] at h1 h2
        refine ⟨s', ?_, ?_⟩
        · rw [hk, readCellsLoop_cons C first last t ts s hc, h1]
          simp [dropThroughNegative, ht]
        · rw [hk]
          simp only [takeThroughNegative, ht, if_true]
          rw [readCellsLoop_cons C first last t _ s hc, h2]
      · rw [if_neg ht] at hid
        have hcount : countNegative (t :: ts) = countNegative ts := by
          simp [countNegative, List.countP_cons, ht]
        obtain ⟨s', h1, h2⟩ := readCellsLoop_consumes C first last ts
          (readCellsBody first last s t) (by rw [hid]; omega)
        have hk' : C - (readCellsBody first last s t).id = k + 1 := by
          rw [hid]
          omega
        rw [hk'] at h1 h2
        refine ⟨s', ?_, ?_⟩
        · rw [hk, readCellsLoop_cons C first last t ts s hc, h1]
          simp [dropThroughNegative, ht]
        · rw [hk]
          simp only [takeThroughNegative, ht, if_false]
          rw [readCellsLoop_cons C first last t _ s hc, h2]
    · have h0 : C - s.id = 0 := by omega
      refine ⟨s, ?_, ?_⟩
      · rw [h0, readCellsLoop_done C first last _ s hc]
        rfl
      · rw [h0]
        exact readCellsLoop_done C first last _ s hc

/-- A run of the cell loop that used up its stream gives the same variables
on that stream followed by any further tokens, and leaves these unread. -/
theorem readCellsLoop_append (C first last : Nat) (other : List Int) :
    ∀ (pre : List Int) (s s' : CellsState),
      readCellsLoop C first last pre s = some (s', []) →
      readCellsLoop C first last (pre ++ other) s = some (s', other)
  | [], s, s', h => by
    by_cases hc : s.id < C
    · simp [readCellsLoop, hc] at h
    · rw [readCellsLoop_done C first last [] s hc] at h
      simp only [Option.some.injEq, Prod.mk.injEq, and_true] at h
      subst h
      simpa using readCellsLoop_done C first last other s hc
  | t :: pre, s, s', h => by
    by_cases hc : s.id < C
    · rw [readCellsLoop_cons C first last t pre s hc] at h
      rw [List.cons_append, readCellsLoop_cons C first last t _ s hc]
      exact readCellsLoop_append C first last other pre _ s' h
    · rw [readCellsLoop_done C first last _ s hc] at h
      simp at h

/-- C16: if the token stream holds at least `C` negative tokens, the loop of
`ReadCells` ends, having consumed exactly the tokens up to and including the
`C`-th negative one; buffer and object come out the same whatever tokens
follow that one; and the cell counter goes up by one at every negative token,
inside or outside the window, and at no other token. -/
theorem ReadCells_consumes_cells {F : Type} (self : SWCMeshIO F) (file : Nat → List Int)
    (buffer : CellBuffer)
    (hneg : self.m_NumberOfCells ≤ countNegative (file self.m_FilePosition)) :
    ∃ r, ReadCells self file buffer = some r ∧
      r.rest = dropThroughNegative self.m_NumberOfCells (file self.m_FilePosition) ∧
      takeThroughNegative self.m_NumberOfCells (file self.m_FilePosition) ++ r.rest =
        file self.m_FilePosition ∧
      (∀ other : List Int, ∃ r',
        ReadCells self
          (fun _ => takeThroughNegative self.m_NumberOfCells (file self.m_FilePosition) ++ other)
          buffer = some r' ∧
        r'.data = r.data ∧ r'.obj = r.obj ∧ r'.rest = other) ∧
      (∀ (first last : Nat) (s : CellsState) (t : Int),
        (readCellsBody first last s t).id = if t < 0 then s.id + 1 else s.id) := by
  obtain ⟨s', h1, h2⟩ := readCellsLoop_consumes self.m_NumberOfCells
    (decSize self.m_FirstCellId) (decSize self.m_LastCellId) (file self.m_FilePosition)
    { data := buffer, numPoints := 0, id := 0, index := 2 } (by simpa using hneg)
  simp only [Nat.sub_zero] at h1 h2
  refine ⟨{ obj := { self with
                     m_FirstCellId := decSize self.m_FirstCellId
                     m_LastCellId := decSize self.m_LastCellId },
            data := s'.data,
            rest := dropThroughNegative self.m_NumberOfCells (file self.m_FilePosition) },
    ?_, rfl, take_append_dropThroughNegative _ _, ?_, readCellsBody_id⟩
  · unfold ReadCells
    simp only
    rw [h1]
  · intro other
    have h3 := readCellsLoop_append self.m_NumberOfCells (decSize self.m_FirstCellId)
      (decSize self.m_LastCellId) other _ _ s' h2
    refine ⟨{ obj := { self with
                       m_FirstCellId := decSize self.m_FirstCellId
                       m_LastCellId := decSize self.m_LastCellId },
              data := s'.data, rest := other }, ?_, rfl, rfl, rfl⟩
    unfold ReadCells
    simp only
    rw [h3]

theorem ReadCells_consumes_cells_witness :
    ∃ r, ReadCells sampleCellsObject sampleStream CellBuffer.fresh = some r ∧
      r.rest = [9] ∧
      [1, 2, -3, 4, -5, 6, 7, -8] ++ r.rest = [1, 2, -3, 4, -5, 6, 7, -8, 9] := by
  obtain ⟨r, e, h1, h2, _⟩ := ReadCells_consumes_cells sampleCellsObject sampleStream
    CellBuffer.fresh (by decide)
  exact ⟨r, e, h1, h2⟩

/-! ## The slots written -/

theorem CellBuffer.fresh_overlay_isSome (L : List Nat) (j : Nat) :
    ((CellBuffer.fresh.overlay 0 L) j).isSome = true ↔ j < L.length := by
  simp only [CellBuffer.overlay, CellBuffer.fresh]
  by_cases h : j < L.length
  · rw [if_pos (by omega)]
    simp [List.getElem?_eq_getElem h, h]
  · rw [if_neg (by omega)]
    simp [h]

/-- C17: on a token stream with at least `C` negative tokens and for every
window with 1-based bounds, the slots that `ReadCells` writes into a fresh
buffer are exactly those below `T`, the sum over the cells of the window of
two plus the number of vertices of the cell: no slot from `T` on is written
and every slot below `T` is. The bounds are `SizeValueType` values and no
cell has `2 ^ 32` vertices or more. -/
theorem ReadCells_fills_exactly {F : Type} (self : SWCMeshIO F) (file : Nat → List Int)
    (hf1 : 1 ≤ self.m_FirstCellId) (hf2 : self.m_FirstCellId < 2 ^ 64)
    (hl1 : 1 ≤ self.m_LastCellId) (hl2 : self.m_LastCellId < 2 ^ 64)
    (hneg : self.m_NumberOfCells ≤ countNegative (file self.m_FilePosition))
    (hlen : ∀ c ∈ (streamCells (file self.m_FilePosition)).take self.m_NumberOfCells,
      c.length < 2 ^ 32) :
    ∃ r, ReadCells self file CellBuffer.fresh = some r ∧
      ∀ j, (r.data j).isSome = true ↔
        j < slotCount (windowCells self.m_NumberOfCells self.m_FirstCellId self.m_LastCellId
          (file self.m_FilePosition)) := by
  obtain ⟨r, e, hd, _, _⟩ := ReadCells_spec self file CellBuffer.fresh hf1 hf2 hl1 hl2 hneg hlen
  refine ⟨r, e, ?_⟩
  intro j
  rw [hd, CellBuffer.fresh_overlay_isSome, windowSlots, layout_length]

theorem ReadCells_fills_exactly_witness :
    ∃ r, ReadCells sampleCellsObject sampleStream CellBuffer.fresh = some r ∧
      ∀ j, (r.data j).isSome = true ↔ j < 9 :=
  ReadCells_fills_exactly sampleCellsObject sampleStream (by decide) (by decide) (by decide)
    (by decide) (by decide) (by decide)

/-! ## Size hint and segment cells -/

/-- Whatever the scan returns has a cell buffer size hint of four times its
number of cells. -/
theorem ReadMeshInformation_hint_of_result {F : Type} (cv : List Char → F × Bool)
    (u : Nat → Locals F) (self : SWCMeshIO F) (file : List Char) (r : SWCMeshIO F)
    (hr : ReadMeshInformation cv u self file = some r) :
    r.m_CellBufferSize = 4 * r.m_NumberOfCells ∧ r.m_FilePosition = self.m_FilePosition := by
  obtain ⟨h, st, _, est, e⟩ := ReadMeshInformation_total cv u self file
  rw [e] at hr
  simp only [Option.some.injEq] at hr
  subst hr
  have inv := dataLoop_invariant cv u
    (fun s => s.obj.m_CellBufferSize = 4 * s.numberOfCells ∧
      s.obj.m_FilePosition = self.m_FilePosition)
    (by
      intro s l ⟨h1, h2⟩
      obtain ⟨p, _, e2, e3⟩ := dataBody_cells cv l s
      refine ⟨?_, h2⟩
      rw [e2, e3]
      by_cases hp : p = -1
      · simp [hp, h1]
      · simp [hp, h1]
        omega)
    _ _ _ est (by simp [scanStart])
  exact inv

theorem slotCount_segments (cells : List (List Int)) (h : ∀ c ∈ cells, c.length = 2) :
    slotCount cells = 4 * cells.length := by
  induction cells with
  | nil => rfl
  | cons c cs ih =>
    have h1 := h c (by simp)
    have h2 := ih (fun x hx => h x (by simp [hx]))
    simp only [slotCount, List.map_cons, List.sum_cons, List.length_cons] at h2 ⊢
    rw [h1, h2]
    omega

/-- `ReadCells` over the full window of a stream of `C` cells of two
vertices each writes exactly the slots below `4 * C` of a fresh buffer. -/
theorem ReadCells_segments {F : Type} (self : SWCMeshIO F) (file : Nat → List Int)
    (hC : self.m_NumberOfCells < 2 ^ 64)
    (hneg : self.m_NumberOfCells ≤ countNegative (file self.m_FilePosition))
    (hseg : ∀ c ∈ (streamCells (file self.m_FilePosition)).take self.m_NumberOfCells,
      c.length = 2) :
    ∃ r, ReadCells { self with m_FirstCellId := 1, m_LastCellId := self.m_NumberOfCells } file
        CellBuffer.fresh = some r ∧
      ∀ j, (r.data j).isSome = true ↔ j < 4 * self.m_NumberOfCells := by
  by_cases h0 : self.m_NumberOfCells = 0
  · refine ⟨{ obj := { self with m_FirstCellId := decSize 1, m_LastCellId := decSize self.m_NumberOfCells },
              data := CellBuffer.fresh, rest := file self.m_FilePosition }, ?_, ?_⟩
    · unfold ReadCells
      simp only
      rw [readCellsLoop_done _ _ _ _ _ (by simp [h0])]
    · intro j
      simp [CellBuffer.fresh, h0]
  · obtain ⟨r, e, hd, _, _⟩ := ReadCells_spec
      { self with m_FirstCellId := 1, m_LastCellId := self.m_NumberOfCells } file
      CellBuffer.fresh (Nat.le_refl 1) (by show 1 < 2 ^ 64; norm_num)
      (by show 1 ≤ self.m_NumberOfCells; omega) hC hneg
      (fun c hc => by rw [hseg c hc]; norm_num)
    refine ⟨r, e, ?_⟩
    intro j
    dsimp only at hd
    rw [hd, CellBuffer.fresh_overlay_isSome, windowSlots, layout_length]
    have hw : windowCells self.m_NumberOfCells 1 self.m_NumberOfCells (file self.m_FilePosition) =
        (streamCells (file self.m_FilePosition)).take self.m_NumberOfCells := by
      unfold windowCells
      rw [List.take_take, Nat.min_self]
      rfl
    rw [hw, slotCount_segments _ hseg, List.length_take, streamCells_length]
    have : min self.m_NumberOfCells (countNegative (file self.m_FilePosition)) =
        self.m_NumberOfCells := by omega
    rw [this]

/-- C18: the size hint of the scan matches the decoder for cells of two
vertices. The scan of any file reports a hint of four times its number of
cells `C`; and if the token stream holds `C` cells of exactly two vertices
each, `ReadCells` over the full window writes exactly the slots below that
hint, `4 * C` of them, into a fresh buffer. -/
theorem ReadCells_segments_fill_size_hint {F : Type} (cv : List Char → F × Bool)
    (u : Nat → Locals F) (self : SWCMeshIO F) (scanned : List Char) (stream : Nat → List Int) :
    ∃ r0, ReadMeshInformation cv u self scanned = some r0 ∧
      r0.m_CellBufferSize = 4 * r0.m_NumberOfCells ∧
      (r0.m_NumberOfCells < 2 ^ 64 →
        r0.m_NumberOfCells ≤ countNegative (stream r0.m_FilePosition) →
        (∀ c ∈ (streamCells (stream r0.m_FilePosition)).take r0.m_NumberOfCells,
          c.length = 2) →
        ∃ r, ReadCells { r0 with m_FirstCellId := 1, m_LastCellId := r0.m_NumberOfCells }
            stream CellBuffer.fresh = some r ∧
          ∀ j, (r.data j).isSome = true ↔ j < r0.m_CellBufferSize) := by
  obtain ⟨h, st, _, _, e⟩ := ReadMeshInformation_total cv u self scanned
  have hh := (ReadMeshInformation_hint_of_result cv u self scanned _ e).1
  refine ⟨finishScan st, e, hh, ?_⟩
  intro hC hneg hseg
  obtain ⟨r, e1, e2⟩ := ReadCells_segments (finishScan st) stream hC hneg hseg
  exact ⟨r, e1, fun j => by rw [hh]; exact e2 j⟩

set_option maxRecDepth 100000 in
theorem ReadCells_segments_fill_size_hint_witness :
    ∃ r0, ReadMeshInformation fieldText sampleLocals sampleObject
        "1 1 0.0 0.0 0.0 1.0 -1\n2 3 1.0 0.0 0.0 1.0 1\n".toList = some r0 ∧
      r0.m_NumberOfCells = 1 ∧ r0.m_CellBufferSize = 4 ∧
      ∃ r, ReadCells { r0 with m_FirstCellId := 1, m_LastCellId := r0.m_NumberOfCells }
          (fun _ => [1, -2]) CellBuffer.fresh = some r ∧
        ∀ j, (r.data j).isSome = true ↔ j < r0.m_CellBufferSize := by
  obtain ⟨r0, e0, hh, himp⟩ := ReadCells_segments_fill_size_hint fieldText sampleLocals
    sampleObject "1 1 0.0 0.0 0.0 1.0 -1\n2 3 1.0 0.0 0.0 1.0 1\n".toList (fun _ => [1, -2])
  have hv : (ReadMeshInformation fieldText sampleLocals sampleObject
      "1 1 0.0 0.0 0.0 1.0 -1\n2 3 1.0 0.0 0.0 1.0 1\n".toList).map
        (fun r => r.m_NumberOfCells) = some 1 := by
    decide
  rw [e0] at hv
  simp only [Option.map_some', Option.some.injEq] at hv
  refine ⟨r0, e0, hv, by rw [hh, hv], ?_⟩
  apply himp
  · rw [hv]
    norm_num
  · rw [hv]
    decide
  · rw [hv]
    decide

/-! ## Token values -/

/-- C20: in `ReadCells` a token `0` is a continuing vertex, never a
terminator: it leaves the cell counter as it is under every window, and
inside the window it stores `(0 - 1) mod 2 ^ 32 = 4294967295` at the cursor.
Inside the window, a token `t ≥ 1` stores `t - 1` and a negative token
`t > -2 ^ 31` stores `-t - 1`, neither wrapped around. The cursor stands at
least two slots past the vertices of the open cell, as it does throughout the
loop. -/
theorem readCellsBody_token_values (first last : Nat) (s : CellsState)
    (hw : first ≤ s.id ∧ s.id ≤ last) (hidx : s.numPoints + 2 ≤ s.index) :
    (∀ (f l : Nat) (s' : CellsState), (readCellsBody f l s' 0).id = s'.id) ∧
    ((readCellsBody first last s 0).data s.index = some 4294967295 ∧
      (readCellsBody first last s 0).numPoints = s.numPoints + 1 ∧
      toUnsignedInt (0 - 1) = 4294967295) ∧
    (∀ t : Int, 1 ≤ t → t < 2 ^ 31 →
      ∃ v : Nat, (readCellsBody first last s t).data s.index = some v ∧ (v : Int) = t - 1) ∧
    (∀ t : Int, t < 0 → -2 ^ 31 < t →
      ∃ v : Nat, (readCellsBody first last s t).data s.index = some v ∧
        (v : Int) = -t - 1) := by
  refine ⟨?_, ?_, ?_, ?_⟩
  · intro f l s'
    rw [readCellsBody_id]
    simp
  · rw [readCellsBody_vertex_in first last s 0 (Int.le_refl 0) hw]
    refine ⟨?_, rfl, by decide⟩
    simp only [CellBuffer.write, if_true]
    rfl
  · intro t h1 h2
    rw [readCellsBody_vertex_in first last s t (by omega) hw]
    refine ⟨toUnsignedInt (t - 1), by simp [CellBuffer.write], ?_⟩
    simp only [toUnsignedInt]
    omega
  · intro t h1 h2
    rw [readCellsBody_terminator_in first last s t h1 hw]
    refine ⟨toUnsignedInt (-(t + 1)), ?_, ?_⟩
    · have a1 : s.index ≠ s.index + 1 - (s.numPoints + 1) - 1 := by omega
      have a2 : s.index ≠ s.index + 1 - (s.numPoints + 1) - 2 := by omega
      simp only [CellBuffer.write, if_neg a1, if_neg a2, if_true]
    · simp only [toUnsignedInt]
      omega

theorem readCellsBody_token_values_witness :
    (readCellsBody 0 0 { data := CellBuffer.fresh, numPoints := 0, id := 0, index := 2 } 0).data
        2 = some 4294967295 ∧
    (∃ v : Nat,
      (readCellsBody 0 0 { data := CellBuffer.fresh, numPoints := 0, id := 0, index := 2 } 7).data
        2 = some v ∧ (v : Int) = 7 - 1) ∧
    (∃ v : Nat,
      (readCellsBody 0 0 { data := CellBuffer.fresh, numPoints := 0, id := 0, index := 2 }
        (-7)).data 2 = some v ∧ (v : Int) = - -7 - 1) := by
  obtain ⟨_, h0, h1, h2⟩ := readCellsBody_token_values 0 0
    { data := CellBuffer.fresh, numPoints := 0, id := 0, index := 2 } (by decide) (by decide)
  exact ⟨h0.1, h1 7 (by decide) (by decide), h2 (-7) (by decide) (by decide)⟩

end itk
